import Mathlib

/-!
Verification development for the pyroute2 IPDB route module
(src/pyroute2/ipdb/route.py): a shallow embedding of the route key model,
the nexthop set, the per-table index, the netlink merge and the commit
protocol, together with theorems settling the specification claims.

Conventions of the embedding:
 - Python scalar values are PVal; an Option PVal is a value that may be
   Python None.  A fields entry holding none models a key that is present
   in the mapping with value None, while an absent entry models a missing
   key; msg.get(k, None) flattens the two.
 - Fallible Python code (KeyError, TypeError, AttributeError, commit
   errors) is modelled with Except PyErr.
 - Dictionaries are insertion-ordered association lists, as in CPython.
-/

/-- Address family tag for MPLS, from pyroute2.common (AF_MPLS). -/
def afMpls : Int := 28

/-- A scalar Python value as it appears in route fields: a string, an
integer, or a list of integer MPLS labels. -/
inductive PVal where
  | s (x : String)
  | i (x : Int)
  | il (xs : List Int)
deriving DecidableEq, Repr

/-- Python truthiness of a scalar value. -/
def PVal.truthy : PVal → Bool
  | .s x => x ≠ ""
  | .i x => x ≠ 0
  | .il xs => xs ≠ []

/-- Truthiness of an optional value (Python None is falsy). -/
def truthyO : Option PVal → Bool
  | none => false
  | some v => v.truthy

/-- Python exceptions raised by the modelled code paths. -/
inductive PyErr where
  | keyErr | typeErr | attrErr | valueErr | indexErr
  | commitExc
  | reqFail | waitFail | delFail | wdFail
  | runtime
deriving DecidableEq, Repr

/-- Universal route key (route.py 121-128): ordered tuple of six fields,
the first four required (src, dst, gateway, encap), the trailing two
optional (iif, oif). -/
structure RouteKey where
  src : Option PVal
  dst : Option PVal
  gateway : Option PVal
  encap : Option PVal
  iif : Option PVal
  oif : Option PVal
deriving DecidableEq, Repr

/-- MPLS multipath nexthop key (route.py 131-135): (newdst, via, oif),
the first two fields required. -/
structure MPLSNHKey where
  newdst : List Int
  via : Option PVal
  oif : Option PVal
deriving DecidableEq, Repr

/-- A nexthop-set key: an ordinary RouteKey or an MPLS nexthop key. -/
inductive NHKey where
  | ip (k : RouteKey)
  | mp (k : MPLSNHKey)
deriving DecidableEq, Repr

/-- skey = key[:required] + (None,) * (len(fields) - required), as
computed in NextHopSet.add (route.py 72-74): the key with its optional
suffix fields cleared. -/
def skeyK : NHKey → NHKey
  | .ip k => .ip { k with iif := none, oif := none }
  | .mp k => .mp { k with oif := none }

/-- Key of an entry in the MPLS routing table: a bare label (route with a
dst label list), an MPLS nexthop key, or a raw scalar (make_key falling
through with a non-list, non-None dst). -/
inductive MPLSKey where
  | lbl (n : Int)
  | nh (k : MPLSNHKey)
  | raw (v : PVal)
deriving DecidableEq, Repr

/-- What MPLSRoute.make_key and NextHopSet.__make_nh can produce: a
proper namedtuple key (which has a _required attribute), or a bare
scalar such as an MPLS label, which has none. -/
inductive NhVal where
  | key (k : NHKey)
  | scalar (v : PVal)
deriving DecidableEq, Repr

mutual
/-- The field mapping of a route entity, a transaction, or a plain route
spec dict: generic scalar fields plus the nested encap (type, labels),
metrics, via (family, addr) objects and the multipath nexthop set.  An
absent nested object is none.  The nested objects live in dedicated
slots rather than in the generic fields list because the code always
addresses them by name with dedicated handling. -/
inductive RDct where
  | mk (fields : List (String × Option PVal))
       (encap : Option (Option PVal × Option PVal))
       (metrics : Option (List (String × PVal)))
       (via : Option (Option PVal × Option PVal))
       (multipath : List (NHKey × NhPrime))

/-- A prime accepted by NextHopSet (route.py 48-59): a plain dict, a
route entity (tagged with its class, MPLS or ordinary), or a pre-built
key tuple. -/
inductive NhPrime where
  | dct (d : RDct)
  | rt (mpls : Bool) (d : RDct)
  | key (k : NHKey)
end

def RDct.fields : RDct → List (String × Option PVal)
  | .mk f _ _ _ _ => f

def RDct.encap : RDct → Option (Option PVal × Option PVal)
  | .mk _ e _ _ _ => e

def RDct.metrics : RDct → Option (List (String × PVal))
  | .mk _ _ m _ _ => m

def RDct.via : RDct → Option (Option PVal × Option PVal)
  | .mk _ _ _ v _ => v

def RDct.multipath : RDct → List (NHKey × NhPrime)
  | .mk _ _ _ _ mp => mp

/-- msg.get(k, None) on the generic fields: an absent key and a key set
to None both give None. -/
def RDct.gf (r : RDct) (k : String) : Option PVal :=
  (r.fields.lookup k).join

/-- k in mapping (a key present with value None counts as present). -/
def RDct.hasF (r : RDct) (k : String) : Bool :=
  (r.fields.lookup k).isSome

/-- Dict assignment on an association list: replace in place if the key
exists (CPython keeps insertion position; keys are unique), else append. -/
def setAssoc : List (String × Option PVal) → String → Option PVal →
    List (String × Option PVal)
  | [], k, v => [(k, v)]
  | e :: t, k, v => if e.1 = k then (k, v) :: t else e :: setAssoc t k v

/-- Dict deletion on an association list (first occurrence; keys of a
dict are unique). -/
def delAssoc (fs : List (String × Option PVal)) (k : String) :
    List (String × Option PVal) :=
  match fs with
  | [] => []
  | e :: t => if e.1 = k then t else e :: delAssoc t k

def RDct.setF (r : RDct) (k : String) (v : Option PVal) : RDct :=
  match r with
  | .mk f e m vi mp => .mk (setAssoc f k v) e m vi mp

def RDct.delF (r : RDct) (k : String) : RDct :=
  match r with
  | .mk f e m vi mp => .mk (delAssoc f k) e m vi mp

def RDct.setEncap (r : RDct) (e : Option (Option PVal × Option PVal)) : RDct :=
  match r with
  | .mk f _ m vi mp => .mk f e m vi mp

def RDct.setMetrics (r : RDct) (m : Option (List (String × PVal))) : RDct :=
  match r with
  | .mk f e _ vi mp => .mk f e m vi mp

def RDct.setVia (r : RDct) (v : Option (Option PVal × Option PVal)) : RDct :=
  match r with
  | .mk f e m _ mp => .mk f e m v mp

def RDct.setMP (r : RDct) (mp : List (NHKey × NhPrime)) : RDct :=
  match r with
  | .mk f e m vi _ => .mk f e m vi mp

/-- The labels join: '/'.join(str(label) for each element). -/
def joinLabels (ls : List Int) : String :=
  String.intercalate ("/") (ls.map toString)

/-- prime.get('encap', \x7b\x7d).get('labels', None), as read by the
single-nexthop inheritance in Route.make_key (route.py 427-431); a tuple
prime has no .get and raises AttributeError. -/
def NhPrime.encLabels : NhPrime → Except PyErr (Option PVal)
  | .dct d | .rt _ d => .ok (d.encap.bind (fun e => e.2))
  | .key _ => .error .attrErr

/-- prime.get('gateway', None) for gateway inheritance from a single
nexthop (route.py 434-438). -/
def NhPrime.gwOf : NhPrime → Except PyErr (Option PVal)
  | .dct d | .rt _ d => .ok (d.gf ("gateway"))
  | .key _ => .error .attrErr

/-- The encap part of the single-multipath inheritance: when exactly one
nexthop exists, its encap labels are used. -/
def encInherit (d : RDct) : Except PyErr (Option PVal) :=
  if d.multipath.length = 1 then
    match d.multipath.head? with
    | some e => e.2.encLabels
    | none => .ok none
  else .ok none

/-- Route.make_key on a field mapping (the dict branch of route.py
422-444): the six key fields are read with .get; encap resolves to the
mapping's own truthy encap labels, else to the single nexthop's labels;
gateway falls back to the single nexthop's gateway when its own value is
falsy; list-shaped encap labels are joined with '/'.  The encap and
multipath values live in their slots of RDct; a present encap object is
truthy as a Python dict (the Encap transactional always carries its two
keys). -/
def routeMakeKeyD (d : RDct) : Except PyErr RouteKey := do
  let encV ← (match d.encap with
    | some e => if truthyO e.2 then pure e.2 else encInherit d
    | none => encInherit d)
  let encV2 := match encV with
    | some (PVal.il ls) => some (PVal.s (joinLabels ls))
    | x => x
  let gw0 := d.gf ("gateway")
  let gw ← (if d.multipath.length = 1 ∧ ¬ truthyO gw0 then
      match d.multipath.head? with
      | some e => e.2.gwOf
      | none => pure gw0
    else pure gw0)
  pure { src := d.gf ("src"), dst := d.gf ("dst"), gateway := gw,
         encap := encV2, iif := d.gf ("iif"), oif := d.gf ("oif") }

/-- MPLSRoute.make_key on a field mapping (route.py 516-537): a list dst
yields its first label as a bare scalar key; a non-list, non-None dst is
returned as-is; an absent dst builds the MPLSNHKey triple from newdst
(KeyError when missing), via.addr and oif. -/
def mplsMakeKeyD (d : RDct) : Except PyErr NhVal :=
  match d.gf ("dst") with
  | some (PVal.il ls) =>
      match ls with
      | l :: _ => .ok (.scalar (PVal.i l))
      | [] => .error .indexErr
  | some v => .ok (.scalar v)
  | none =>
      match d.fields.lookup ("newdst") with
      | some (some (PVal.il ls)) =>
          .ok (.key (.mp { newdst := ls,
                           via := d.via.bind (fun p => p.2),
                           oif := d.gf ("oif") }))
      | some _ => .error .typeErr
      | none => .error .keyErr

/-- NextHopSet.__make_nh (route.py 48-59): a route entity dispatches to
its class's make_key, a dict dispatches by address family, a tuple is
returned unchanged. -/
def makeNh : NhPrime → Except PyErr NhVal
  | .rt true d => mplsMakeKeyD d
  | .rt false d => (routeMakeKeyD d).map (fun k => .key (.ip k))
  | .dct d =>
      if d.gf ("family") = some (PVal.i afMpls) then mplsMakeKeyD d
      else (routeMakeKeyD d).map (fun k => .key (.ip k))
  | .key k => .ok (.key k)

/-- The raw mapping of a nexthop set: insertion-ordered keys, each
holding the prime that produced it. -/
abbrev NHS := List (NHKey × NhPrime)

def lsKeys (s : NHS) : List NHKey :=
  s.map (fun e => e.1)

/-- Modelled from the spec: LinkedSet.add of the ordered keyed set base
(pyroute2.ipdb.linkedset, not under src/).  The spec describes it as a
generic add by key with insertion order preserved and last-write-wins
values: an absent key is appended, an existing key keeps its position
and takes the new raw value. -/
def lsAdd (s : NHS) (k : NHKey) (p : NhPrime) : NHS :=
  if k ∈ lsKeys s then s.map (fun e => if e.1 = k then (k, p) else e)
  else s ++ [(k, p)]

/-- Deletion of a key from the raw dict (first occurrence; dict keys are
unique). -/
def delK (s : NHS) (k : NHKey) : NHS :=
  match s with
  | [] => []
  | e :: t => if e.1 = k then t else delK t k |> (e :: ·)

/-- NextHopSet.add (route.py 70-77): derive the key from the prime (a
bare scalar key has no _required attribute and raises AttributeError),
delete the entry whose key is the required prefix padded with None if
present, then add through the ordered set base.  The raw value stored is
the prime itself. -/
def nhsAdd (s : NHS) (p : NhPrime) : Except PyErr NHS := do
  let kv ← makeNh p
  match kv with
  | .scalar _ => .error .attrErr
  | .key k =>
      let sk := skeyK k
      let s1 := if sk ∈ lsKeys s then delK s sk else s
      pure (lsAdd s1 k p)

/-- One field of a prime viewed as a mapping for the fallback scan of
NextHopSet.remove: a scalar entry carries its value, an entry holding a
nested object (encap, metrics, via, multipath) only its truthiness. -/
inductive FRef where
  | scalar (ref : String) (v : Option PVal)
  | obj (ref : String) (t : Bool)

/-- key._asdict()[ref] for the fallback scan: the named field of the key,
or none when the key has no such field (Python KeyError). -/
def keyFieldGet : NHKey → String → Option (Option PVal)
  | .ip k, f =>
      if f = "src" then some k.src
      else if f = "dst" then some k.dst
      else if f = "gateway" then some k.gateway
      else if f = "encap" then some k.encap
      else if f = "iif" then some k.iif
      else if f = "oif" then some k.oif
      else none
  | .mp k, f =>
      if f = "newdst" then some (some (PVal.il k.newdst))
      else if f = "via" then some k.via
      else if f = "oif" then some k.oif
      else none

/-- The items a dict or route prime exposes when iterated as a mapping:
its generic fields in order, then the nested objects that are present. -/
def primeItems (d : RDct) : List FRef :=
  (d.fields.map (fun e => FRef.scalar e.1 e.2))
    ++ (match d.encap with
        | some _ => [FRef.obj ("encap") true]
        | none => [])
    ++ (match d.metrics with
        | some l => [FRef.obj ("metrics") (l ≠ [])]
        | none => [])
    ++ (match d.via with
        | some _ => [FRef.obj ("via") true]
        | none => [])
    ++ (if d.multipath.isEmpty then [] else [FRef.obj ("multipath") true])

/-- Whether one raw key matches the truthy fields of the prime in the
fallback scan of NextHopSet.remove (route.py 84-90): falsy prime fields
are skipped; a truthy field absent from the key dict raises KeyError; a
nested object value never equals a key scalar. -/
def fbMatchKey (k : NHKey) : List FRef → Except PyErr Bool
  | [] => .ok true
  | FRef.scalar ref v :: rest =>
      if ¬ truthyO v then fbMatchKey k rest
      else match keyFieldGet k ref with
        | none => .error .keyErr
        | some kv => if kv = v then fbMatchKey k rest else .ok false
  | FRef.obj ref t :: rest =>
      if ¬ t then fbMatchKey k rest
      else match keyFieldGet k ref with
        | none => .error .keyErr
        | some _ => .ok false

/-- First raw key structurally matching the prime in the fallback scan. -/
def findFB (s : NHS) (items : List FRef) : Except PyErr (Option NHKey) :=
  match s with
  | [] => .ok none
  | e :: t => do
      let m ← fbMatchKey e.1 items
      if m then pure (some e.1) else findFB t items

/-- NextHopSet.remove (route.py 79-93): exact removal by derived key; on
a miss, a linear scan matching only the truthy fields of the prime
removes the first structural match, else the original KeyError is
re-raised.  Iterating a tuple prime as a mapping fails. -/
def nhsRemove (s : NHS) (p : NhPrime) : Except PyErr NHS := do
  let kv ← makeNh p
  let exactK : Option NHKey :=
    match kv with
    | .key k => if k ∈ lsKeys s then some k else none
    | .scalar _ => none
  match exactK with
  | some k => pure (delK s k)
  | none =>
      match p with
      | .key _ => .error .typeErr
      | .dct d | .rt _ d => do
          let found ← findFB s (primeItems d)
          match found with
          | some k => pure (delK s k)
          | none => .error .keyErr

/-- NextHopSet.__sub__ (route.py 41-46): the entries of the left set
whose keys are absent from the right set, re-added from their raw
values.  The difference of the two key sets is a plain Python set,
iterated in an unspecified, hash-dependent order: the model takes that
enumeration as the ord parameter, so a property of __sub__ must hold
for every duplicate-free enumeration of the keys of the left operand
absent from the right (the theorems below constrain ord exactly so).
Each kept key's raw value self[v] is re-added through NextHopSet.add;
a key outside the left operand would be a KeyError (unreachable for a
real enumeration). -/
def nhsSub (ord : List NHKey) (a : NHS) : Except PyErr NHS :=
  ord.foldlM (fun acc k =>
    match a.lookup k with
    | some p => nhsAdd acc p
    | none => .error .keyErr) []

/-- Reachable-state invariant of a nexthop set built through its own add
and remove operations: keys are unique, every stored key is the one
derived from its raw value, and no entry with a wholly-unset optional
suffix precedes an entry it is the skey of (adding the later entry would
have deleted it). -/
abbrev nhsWF (s : NHS) : Prop :=
  (lsKeys s).Nodup ∧
  (∀ e ∈ s, makeNh e.2 = .ok (.key e.1)) ∧
  (lsKeys s).Pairwise (fun a b => a ≠ skeyK b)

instance {ε α : Type} [DecidableEq ε] [DecidableEq α] : DecidableEq (Except ε α) := fun a b =>
  match a, b with
  | .ok x, .ok y => if h : x = y then isTrue (by rw [h]) else isFalse (by simp [h])
  | .error x, .error y => if h : x = y then isTrue (by rw [h]) else isFalse (by simp [h])
  | .ok _, .error _ => isFalse (by simp)
  | .error _, .ok _ => isFalse (by simp)

theorem lsKeys_append (s t : NHS) : lsKeys (s ++ t) = lsKeys s ++ lsKeys t := by
  simp [lsKeys]

theorem mem_delK_of_ne {s : NHS} {k : NHKey} {e : NHKey × NhPrime}
    (he : e ∈ s) (hne : e.1 ≠ k) : e ∈ delK s k := by
  induction s with
  | nil => simp at he
  | cons a t ih =>
      rcases List.mem_cons.mp he with h | h
      · subst h
        simp only [delK]
        rw [if_neg hne]
        exact List.mem_cons_self _ _
      · simp only [delK]
        by_cases hak : a.1 = k
        · rw [if_pos hak]; exact h
        · rw [if_neg hak]; exact List.mem_cons_of_mem _ (ih h)

theorem mem_lsKeys_delK {s : NHS} {k k' : NHKey}
    (h : k' ∈ lsKeys (delK s k)) : k' ∈ lsKeys s := by
  induction s with
  | nil => simpa [delK] using h
  | cons a t ih =>
      simp only [delK] at h
      by_cases hak : a.1 = k
      · rw [if_pos hak] at h
        exact List.mem_cons_of_mem _ h
      · rw [if_neg hak] at h
        rcases List.mem_cons.mp h with h1 | h1
        · exact h1 ▸ List.mem_cons_self _ _
        · exact List.mem_cons_of_mem _ (ih h1)

theorem not_mem_lsKeys_delK {s : NHS} {k : NHKey}
    (hnd : (lsKeys s).Nodup) : k ∉ lsKeys (delK s k) := by
  induction s with
  | nil => simp [delK, lsKeys]
  | cons a t ih =>
      simp only [lsKeys, List.map_cons, List.nodup_cons] at hnd
      simp only [delK]
      by_cases hak : a.1 = k
      · rw [if_pos hak]
        intro hmem
        exact hnd.1 (hak ▸ hmem)
      · rw [if_neg hak]
        intro hmem
        rcases List.mem_cons.mp hmem with h1 | h1
        · exact hak h1.symm
        · exact ih hnd.2 h1

theorem length_delK {s : NHS} {k : NHKey}
    (h : k ∈ lsKeys s) : (delK s k).length + 1 = s.length := by
  induction s with
  | nil => simp [lsKeys] at h
  | cons a t ih =>
      simp only [delK]
      by_cases hak : a.1 = k
      · rw [if_pos hak]; simp
      · rw [if_neg hak]
        rcases List.mem_cons.mp h with h1 | h1
        · exact absurd h1.symm hak
        · simpa using ih h1

theorem mem_lsAdd_self (s : NHS) (k : NHKey) (p : NhPrime) :
    k ∈ lsKeys (lsAdd s k p) := by
  unfold lsAdd
  by_cases hk : k ∈ lsKeys s
  · rw [if_pos hk]
    rcases List.mem_map.mp hk with ⟨e, he, hek⟩
    refine List.mem_map.mpr ⟨if e.1 = k then (k, p) else e, List.mem_map_of_mem _ he, ?_⟩
    by_cases h1 : e.1 = k
    · simp [h1]
    · exact absurd hek h1
  · rw [if_neg hk]
    simp [lsKeys]

theorem mem_lsAdd_of_ne {s : NHS} {k : NHKey} {p : NhPrime} {e : NHKey × NhPrime}
    (he : e ∈ s) (hne : e.1 ≠ k) : e ∈ lsAdd s k p := by
  unfold lsAdd
  by_cases hk : k ∈ lsKeys s
  · rw [if_pos hk]
    refine List.mem_map.mpr ⟨e, he, ?_⟩
    rw [if_neg hne]
  · rw [if_neg hk]
    exact List.mem_append_left _ he

theorem lsKeys_lsAdd (s : NHS) (k : NHKey) (p : NhPrime) :
    lsKeys (lsAdd s k p) = if k ∈ lsKeys s then lsKeys s else lsKeys s ++ [k] := by
  unfold lsAdd
  by_cases hk : k ∈ lsKeys s
  · rw [if_pos hk, if_pos hk]
    simp only [lsKeys, List.map_map]
    refine List.map_congr_left ?_
    intro e _
    by_cases h1 : e.1 = k
    · simp [Function.comp, h1]
    · simp [Function.comp, h1]
  · rw [if_neg hk, if_neg hk]
    simp [lsKeys]

theorem length_lsAdd (s : NHS) (k : NHKey) (p : NhPrime) :
    (lsAdd s k p).length = if k ∈ lsKeys s then s.length else s.length + 1 := by
  unfold lsAdd
  by_cases hk : k ∈ lsKeys s
  · rw [if_pos hk, if_pos hk]
    simp
  · rw [if_neg hk, if_neg hk]
    simp

def c1d1 : RDct :=
  .mk [("gateway", some (PVal.s ("10.0.0.1"))), ("oif", some (PVal.i 1))] none none none []

def c1d2 : RDct :=
  .mk [("gateway", some (PVal.s ("10.0.0.1"))), ("oif", some (PVal.i 2))] none none none []

def c1p1 : NhPrime := .dct c1d1

def c1p2 : NhPrime := .dct c1d2

def c1k1 : NHKey :=
  .ip { src := none, dst := none, gateway := some (PVal.s ("10.0.0.1")),
        encap := none, iif := none, oif := some (PVal.i 1) }

def c1k2 : NHKey :=
  .ip { src := none, dst := none, gateway := some (PVal.s ("10.0.0.1")),
        encap := none, iif := none, oif := some (PVal.i 2) }

/-- C1 (counterexample): in NextHopSet.add, an existing entry is NOT
removed merely because its required-field prefix matches the new key.
Starting from a set holding the nexthop (gateway 10.0.0.1, oif 1) and
adding (gateway 10.0.0.1, oif 2) - same required prefix, different
optional suffix - keeps both entries: the set ends with two entries of
the same required-field identity and its size grows from 1 to 2,
refuting the claimed wildcard removal and the claimed constant size. -/
theorem claim_C1_counterexample :
    Except.map lsKeys (nhsAdd [(c1k1, c1p1)] c1p2) = .ok [c1k1, c1k2] ∧
    Except.map List.length (nhsAdd [(c1k1, c1p1)] c1p2) = .ok 2 ∧
    skeyK c1k1 = skeyK c1k2 ∧ c1k1 ≠ c1k2 ∧
    makeNh c1p2 = .ok (.key c1k2) := by
  decide

theorem mem_lsKeys_delK_of_ne {s : NHS} {k k' : NHKey}
    (h : k' ∈ lsKeys s) (hne : k' ≠ k) : k' ∈ lsKeys (delK s k) := by
  rcases List.mem_map.mp h with ⟨e, he, hek⟩
  exact hek ▸ List.mem_map_of_mem _ (mem_delK_of_ne he (by rw [hek]; exact hne))

/-- C1 (amended): NextHopSet.add removes, before inserting, exactly the
existing entry whose key equals the new key's required prefix padded
with None (all optional suffix fields unset) - not every entry sharing
the required prefix.  Hence: entries with any other key survive; the new
key is present afterwards; the padded prefix key is gone (unless it is
the new key itself); and the size stays constant exactly when exactly
one of the padded key and the full key was already present: it grows by
one when neither was present, and SHRINKS by one when the padded key
and the distinct full key were both present (the add deletes the padded
entry and updates the full-key entry in place). -/
theorem claim_C1 (s : NHS) (p : NhPrime) (k : NHKey) (s2 : NHS)
    (hk : makeNh p = .ok (.key k)) (hnd : (lsKeys s).Nodup)
    (hadd : nhsAdd s p = .ok s2) :
    (∀ e ∈ s, e.1 ≠ skeyK k → e.1 ≠ k → e ∈ s2) ∧
    k ∈ lsKeys s2 ∧
    (skeyK k ≠ k → skeyK k ∉ lsKeys s2) ∧
    ((k = skeyK k →
        (k ∈ lsKeys s → s2.length = s.length) ∧
        (k ∉ lsKeys s → s2.length = s.length + 1)) ∧
     (k ≠ skeyK k →
        (skeyK k ∈ lsKeys s → k ∈ lsKeys s → s2.length + 1 = s.length) ∧
        (skeyK k ∈ lsKeys s → k ∉ lsKeys s → s2.length = s.length) ∧
        (skeyK k ∉ lsKeys s → k ∈ lsKeys s → s2.length = s.length) ∧
        (skeyK k ∉ lsKeys s → k ∉ lsKeys s → s2.length = s.length + 1))) := by
  have hs2 : s2 = lsAdd (if skeyK k ∈ lsKeys s then delK s (skeyK k) else s) k p := by
    simp only [nhsAdd, hk, Except.bind] at hadd
    cases hadd
    rfl
  subst hs2
  set s1 := if skeyK k ∈ lsKeys s then delK s (skeyK k) else s with hs1
  refine ⟨?_, mem_lsAdd_self _ _ _, ?_, ?_⟩
  · intro e he hesk hek
    have he1 : e ∈ s1 := by
      rw [hs1]
      by_cases hsk : skeyK k ∈ lsKeys s
      · rw [if_pos hsk]; exact mem_delK_of_ne he hesk
      · rw [if_neg hsk]; exact he
    exact mem_lsAdd_of_ne he1 hek
  · intro hne
    have h1 : skeyK k ∉ lsKeys s1 := by
      rw [hs1]
      by_cases hsk : skeyK k ∈ lsKeys s
      · rw [if_pos hsk]; exact not_mem_lsKeys_delK hnd
      · rw [if_neg hsk]; exact hsk
    rw [lsKeys_lsAdd]
    by_cases hk1 : k ∈ lsKeys s1
    · rw [if_pos hk1]; exact h1
    · rw [if_neg hk1]
      intro hmem
      rcases List.mem_append.mp hmem with h2 | h2
      · exact h1 h2
      · exact hne (List.mem_singleton.mp h2)
  · constructor
    · intro heq
      constructor
      · intro hkin
        have hsk : skeyK k ∈ lsKeys s := heq ▸ hkin
        have hs1d : s1 = delK s (skeyK k) := by rw [hs1, if_pos hsk]
        have hlen1 : s1.length + 1 = s.length := by rw [hs1d]; exact length_delK hsk
        have hk1 : k ∉ lsKeys s1 := by
          rw [hs1d, ← heq]; exact not_mem_lsKeys_delK hnd
        rw [length_lsAdd, if_neg hk1]
        exact hlen1
      · intro hkout
        have hsk : skeyK k ∉ lsKeys s := fun hmem => hkout (heq ▸ hmem)
        have hs1d : s1 = s := by rw [hs1, if_neg hsk]
        have hk1 : k ∉ lsKeys s1 := hs1d ▸ hkout
        rw [length_lsAdd, if_neg hk1, hs1d]
    · intro hne
      refine ⟨?_, ?_, ?_, ?_⟩
      · intro hsk hkin
        have hs1d : s1 = delK s (skeyK k) := by rw [hs1, if_pos hsk]
        have hlen1 : s1.length + 1 = s.length := by rw [hs1d]; exact length_delK hsk
        have hk1 : k ∈ lsKeys s1 := by
          rw [hs1d]; exact mem_lsKeys_delK_of_ne hkin hne
        rw [length_lsAdd, if_pos hk1]
        exact hlen1
      · intro hsk hkout
        have hs1d : s1 = delK s (skeyK k) := by rw [hs1, if_pos hsk]
        have hlen1 : s1.length + 1 = s.length := by rw [hs1d]; exact length_delK hsk
        have hk1 : k ∉ lsKeys s1 := by
          rw [hs1d]; intro hmem; exact hkout (mem_lsKeys_delK hmem)
        rw [length_lsAdd, if_neg hk1]
        exact hlen1
      · intro hsk hkin
        have hs1d : s1 = s := by rw [hs1, if_neg hsk]
        have hk1 : k ∈ lsKeys s1 := hs1d ▸ hkin
        rw [length_lsAdd, if_pos hk1, hs1d]
      · intro hsk hkout
        have hs1d : s1 = s := by rw [hs1, if_neg hsk]
        have hk1 : k ∉ lsKeys s1 := hs1d ▸ hkout
        rw [length_lsAdd, if_neg hk1, hs1d]

theorem claim_C1_witness :
    makeNh c1p2 = .ok (.key c1k2) ∧ (lsKeys [(c1k1, c1p1)]).Nodup ∧
    ((∀ e ∈ [(c1k1, c1p1)], e.1 ≠ skeyK c1k2 → e.1 ≠ c1k2 → e ∈ [(c1k1, c1p1), (c1k2, c1p2)]) ∧
     c1k2 ∈ lsKeys [(c1k1, c1p1), (c1k2, c1p2)] ∧
     (skeyK c1k2 ≠ c1k2 → skeyK c1k2 ∉ lsKeys [(c1k1, c1p1), (c1k2, c1p2)]) ∧
     ((c1k2 = skeyK c1k2 →
         (c1k2 ∈ lsKeys [(c1k1, c1p1)] →
           ([(c1k1, c1p1), (c1k2, c1p2)] : NHS).length = ([(c1k1, c1p1)] : NHS).length) ∧
         (c1k2 ∉ lsKeys [(c1k1, c1p1)] →
           ([(c1k1, c1p1), (c1k2, c1p2)] : NHS).length = ([(c1k1, c1p1)] : NHS).length + 1)) ∧
      (c1k2 ≠ skeyK c1k2 →
         (skeyK c1k2 ∈ lsKeys [(c1k1, c1p1)] → c1k2 ∈ lsKeys [(c1k1, c1p1)] →
           ([(c1k1, c1p1), (c1k2, c1p2)] : NHS).length + 1 = ([(c1k1, c1p1)] : NHS).length) ∧
         (skeyK c1k2 ∈ lsKeys [(c1k1, c1p1)] → c1k2 ∉ lsKeys [(c1k1, c1p1)] →
           ([(c1k1, c1p1), (c1k2, c1p2)] : NHS).length = ([(c1k1, c1p1)] : NHS).length) ∧
         (skeyK c1k2 ∉ lsKeys [(c1k1, c1p1)] → c1k2 ∈ lsKeys [(c1k1, c1p1)] →
           ([(c1k1, c1p1), (c1k2, c1p2)] : NHS).length = ([(c1k1, c1p1)] : NHS).length) ∧
         (skeyK c1k2 ∉ lsKeys [(c1k1, c1p1)] → c1k2 ∉ lsKeys [(c1k1, c1p1)] →
           ([(c1k1, c1p1), (c1k2, c1p2)] : NHS).length = ([(c1k1, c1p1)] : NHS).length + 1)))) :=
  ⟨by decide, by decide,
   claim_C1 [(c1k1, c1p1)] c1p2 c1k2 [(c1k1, c1p1), (c1k2, c1p2)] (by decide) (by decide) rfl⟩

theorem lookup_some_mem {a : NHS} {k : NHKey} {p : NhPrime}
    (h : a.lookup k = some p) : (k, p) ∈ a := by
  induction a with
  | nil => simp [List.lookup] at h
  | cons e t ih =>
      simp only [List.lookup] at h
      cases hb : k == e.1 with
      | true =>
          rw [hb] at h
          have hk : k = e.1 := beq_iff_eq.mp hb
          have hp : p = e.2 := (Option.some.inj h).symm
          subst hk
          subst hp
          exact List.mem_cons_self _ _
      | false =>
          rw [hb] at h
          exact List.mem_cons_of_mem _ (ih h)

theorem mem_lookup_some {a : NHS} {e : NHKey × NhPrime}
    (hnd : (lsKeys a).Nodup) (he : e ∈ a) : a.lookup e.1 = some e.2 := by
  induction a with
  | nil => simp at he
  | cons x t ih =>
      simp only [lsKeys, List.map_cons, List.nodup_cons] at hnd
      rcases List.mem_cons.mp he with h | h
      · subst h
        simp [List.lookup]
      · have hne : e.1 ≠ x.1 := by
          intro hx
          exact hnd.1 (hx ▸ List.mem_map_of_mem _ h)
        simp only [List.lookup, beq_false_of_ne hne]
        exact ih hnd.2 h

theorem lookup_isSome_of_mem_keys {a : NHS} {k : NHKey}
    (h : k ∈ lsKeys a) : (a.lookup k).isSome = true := by
  induction a with
  | nil => simp [lsKeys] at h
  | cons x t ih =>
      by_cases hx : k = x.1
      · simp [List.lookup, hx]
      · simp only [lsKeys, List.map_cons, List.mem_cons] at h
        rcases h with h1 | h1
        · exact absurd h1 hx
        · simp only [List.lookup, beq_false_of_ne hx]
          exact ih h1

theorem except_bind_ok2 {ε α β : Type} (x : α) (f : α → Except ε β) :
    (Except.ok x : Except ε α) >>= f = f x := rfl

/-- The re-add loop of __sub__ over an enumeration of the difference
keys: when no enumerated key is the padded prefix of a distinct
enumerated key, every add appends without deleting and the fold
rebuilds exactly the enumerated entries in iteration order. -/
theorem foldAddOrd (a : NHS)
    (hmk : ∀ e ∈ a, makeNh e.2 = .ok (.key e.1)) :
    ∀ ord : List NHKey, ∀ done : NHS,
    (∀ k ∈ ord, (a.lookup k).isSome = true) →
    (lsKeys done ++ ord).Nodup →
    (lsKeys done ++ ord).Pairwise (fun x y => x ≠ skeyK y) →
    ord.foldlM (fun acc k =>
      match a.lookup k with
      | some p => nhsAdd acc p
      | none => .error .keyErr) done =
      .ok (done ++ ord.map (fun k => (k, (a.lookup k).getD (NhPrime.key k)))) := by
  intro ord
  induction ord with
  | nil =>
      intro done _ _ _
      simp only [List.foldlM_nil, List.map_nil, List.append_nil]
      rfl
  | cons k t ih =>
      intro done hlk hnd hpw
      obtain ⟨p, hp⟩ := Option.isSome_iff_exists.mp (hlk k (by simp))
      have hmkp : makeNh p = .ok (.key k) := hmk (k, p) (lookup_some_mem hp)
      have hval : (a.lookup k).getD (NhPrime.key k) = p := by rw [hp]; rfl
      have hsknot : skeyK k ∉ lsKeys done := by
        rcases List.pairwise_append.mp hpw with ⟨_, _, hrel⟩
        intro hmem
        exact hrel _ hmem k (by simp) rfl
      have hknot : k ∉ lsKeys done := by
        rcases List.nodup_append.mp hnd with ⟨_, _, hdisj⟩
        intro hmem
        exact hdisj hmem (by simp)
      have hstep : nhsAdd done p = .ok (done ++ [(k, p)]) := by
        unfold nhsAdd
        rw [hmkp]
        show (pure (lsAdd (if skeyK k ∈ lsKeys done then delK done (skeyK k) else done)
          k p) : Except PyErr NHS) = _
        rw [if_neg hsknot]
        unfold lsAdd
        rw [if_neg hknot]
        rfl
      have hshift : lsKeys (done ++ [(k, p)]) ++ t = lsKeys done ++ k :: t := by
        simp [lsKeys]
      rw [List.foldlM_cons, hp]
      show (nhsAdd done p >>= fun acc => t.foldlM _ acc) = _
      rw [hstep]
      simp only [except_bind_ok2]
      rw [ih (done ++ [(k, p)]) (fun k2 hk2 => hlk k2 (by simp [hk2]))
            (by rw [hshift]; exact hnd) (by rw [hshift]; exact hpw)]
      simp [hval]

def c7ck : NHKey :=
  .ip { src := none, dst := none, gateway := some (PVal.s ("172.16.0.9")),
        encap := none, iif := none, oif := some (PVal.i 7) }

def c7cs : NHKey :=
  .ip { src := none, dst := none, gateway := some (PVal.s ("172.16.0.9")),
        encap := none, iif := none, oif := none }

def c7ca : NHS := [(c7ck, .key c7ck), (c7cs, .key c7cs)]

/-- C7 (counterexample): in the reachable set A = [k, skey k] (built by
add(gw, oif=7) then add(gw); it satisfies nhsWF) with B empty, the
iteration order (skey k, k) - a legal enumeration of the unordered
Python key-set difference - makes the re-add of k delete the freshly
re-added skey-k entry through add's padded-key removal: A - B loses an
entry whose key is absent from B, refuting the exact-membership claim
for route.py 41-46. -/
theorem claim_C7_counterexample :
    nhsWF c7ca ∧
    c7cs = skeyK c7ck ∧ c7ck ≠ c7cs ∧
    ([c7cs, c7ck].Nodup ∧
     (∀ k ∈ [c7cs, c7ck], k ∈ lsKeys c7ca ∧ k ∉ lsKeys ([] : NHS)) ∧
     (∀ k ∈ lsKeys c7ca, k ∉ lsKeys ([] : NHS) → k ∈ [c7cs, c7ck])) ∧
    Except.map lsKeys (nhsSub [c7cs, c7ck] c7ca) = .ok [c7ck] ∧
    c7cs ∉ ([c7ck] : List NHKey) := by
  decide

/-- C7 (amended): __sub__ iterates an unordered set of A's keys absent
from B and re-adds each entry through NextHopSet.add; since add deletes
the entry under the padded required prefix of the key it inserts, the
difference holds exactly the entries of A whose keys are absent from
B - values preserved, independent of the values B stores - only under
the proviso that no two distinct difference keys collide as full key
and padded prefix; without it an adversarial iteration order loses the
padded entry (see the counterexample).  A is a reachable set (nhsWF),
and ord ranges over every enumeration of the key-set difference. -/
theorem claim_C7 (a b : NHS) (ord : List NHKey) (h : nhsWF a)
    (hord : ord.Nodup ∧ (∀ k ∈ ord, k ∈ lsKeys a ∧ k ∉ lsKeys b) ∧
            (∀ k ∈ lsKeys a, k ∉ lsKeys b → k ∈ ord))
    (hnc : ∀ k1 ∈ ord, ∀ k2 ∈ ord, k1 ≠ k2 → k1 ≠ skeyK k2) :
    ∃ c, nhsSub ord a = .ok c ∧
      (∀ e, e ∈ c ↔ (e ∈ a ∧ e.1 ∉ lsKeys b)) ∧
      (∀ k, k ∈ lsKeys c ↔ (k ∈ lsKeys a ∧ k ∉ lsKeys b)) := by
  obtain ⟨hnd, hmk, _⟩ := h
  obtain ⟨hodn, hsub, hcov⟩ := hord
  refine ⟨ord.map (fun k => (k, (a.lookup k).getD (NhPrime.key k))), ?_, ?_, ?_⟩
  · have := foldAddOrd a hmk ord []
      (fun k hk => lookup_isSome_of_mem_keys (hsub k hk).1)
      (by simpa [lsKeys] using hodn)
      (by
        simp only [lsKeys, List.map_nil, List.nil_append]
        exact hodn.imp_of_mem (fun ha hb hxy => hnc _ ha _ hb hxy))
    simpa [nhsSub] using this
  · intro e
    constructor
    · intro he
      rcases List.mem_map.mp he with ⟨k, hk, hek⟩
      have h1 := hsub k hk
      obtain ⟨p, hp⟩ := Option.isSome_iff_exists.mp (lookup_isSome_of_mem_keys h1.1)
      have hkp : e = (k, p) := by rw [← hek, hp]; rfl
      subst hkp
      exact ⟨lookup_some_mem hp, h1.2⟩
    · intro ⟨h1, h2⟩
      have hkord : e.1 ∈ ord := hcov e.1 (List.mem_map_of_mem _ h1) h2
      refine List.mem_map.mpr ⟨e.1, hkord, ?_⟩
      rw [mem_lookup_some hnd h1]
      rfl
  · have hkeys : lsKeys (ord.map (fun k => (k, (a.lookup k).getD (NhPrime.key k)))) = ord := by
      simp only [lsKeys, List.map_map]
      have hcmp : ((fun e : NHKey × NhPrime => e.1) ∘
          fun k => (k, (a.lookup k).getD (NhPrime.key k))) = id := by
        funext k
        rfl
      rw [hcmp, List.map_id]
    intro k
    rw [hkeys]
    constructor
    · intro hk
      exact hsub k hk
    · intro ⟨h1, h2⟩
      exact hcov k h1 h2

def c7k1 : NHKey :=
  .ip { src := none, dst := none, gateway := some (PVal.s ("172.16.0.1")),
        encap := none, iif := none, oif := some (PVal.i 1) }

def c7k2 : NHKey :=
  .ip { src := none, dst := none, gateway := some (PVal.s ("172.16.0.2")),
        encap := none, iif := none, oif := none }

def c7a : NHS := [(c7k1, .key c7k1), (c7k2, .key c7k2)]

def c7b : NHS := [(c7k2, .key c7k1)]

theorem claim_C7_witness :
    nhsWF c7a ∧
    (∃ c, nhsSub [c7k1] c7a = .ok c ∧
      (∀ e, e ∈ c ↔ (e ∈ c7a ∧ e.1 ∉ lsKeys c7b)) ∧
      (∀ k, k ∈ lsKeys c ↔ (k ∈ lsKeys c7a ∧ k ∉ lsKeys c7b))) :=
  ⟨by decide,
   claim_C7 c7a c7b [c7k1] (by decide) ⟨by decide, by decide, by decide⟩ (by decide)⟩

mutual
/-- A decoded rtmsg: the header fields (family, dst_len, table, event,
...) and the attribute list keyed by wire names such as RTA_GATEWAY. -/
inductive Msg where
  | mk (fields : List (String × PVal)) (attrs : List (String × MAttr))

/-- The decoded value of one attribute: a scalar; an MPLS label stack
(RTA_DST for MPLS routes, RTA_NEWDST); an RTA_ENCAP holding an
MPLS_IPTUNNEL_DST label stack; a nested attribute mapping (the attrs of
RTA_METRICS, the dict of RTA_VIA); or the RTA_MULTIPATH record list. -/
inductive MAttr where
  | v (x : PVal)
  | labels (ls : List Int)
  | enc (ls : List Int)
  | nested (kv : List (String × PVal))
  | mp (ms : List Msg)
end

def Msg.fields : Msg → List (String × PVal)
  | .mk f _ => f

def Msg.attrs : Msg → List (String × MAttr)
  | .mk _ a => a

/-- msg.get(k, default None) on the header fields. -/
def Msg.mget (m : Msg) (k : String) : Option PVal :=
  m.fields.lookup k

/-- msg.get_attr(name): the first attribute with the given wire name. -/
def Msg.getAttr (m : Msg) (n : String) : Option MAttr :=
  m.attrs.lookup n

/-- rtmsg.nla2name: strip the RTA_ prefix and lowercase (written over
the character list so that it evaluates inside the kernel). -/
def nlaToName (n : String) : String :=
  match n.data with
  | 'R' :: 'T' :: 'A' :: '_' :: rest => String.mk (rest.map Char.toLower)
  | l => String.mk (l.map Char.toLower)

/-- rtmsg.name2nla: uppercase and add the RTA_ prefix. -/
def nameToNla (n : String) : String :=
  "RTA_" ++ String.mk (n.data.map Char.toUpper)

/-- rtmsg.metrics.nla2name: strip the RTAX_ prefix and lowercase. -/
def rtaxToName (n : String) : String :=
  match n.data with
  | 'R' :: 'T' :: 'A' :: 'X' :: '_' :: rest => String.mk (rest.map Char.toLower)
  | l => String.mk (l.map Char.toLower)

/-- str(v) of a scalar, as used by the percent-s formatting of make_key;
the rendering of a decoded label list is not observed by any claim. -/
def valPyStr : PVal → String
  | .s a => a
  | .i n => toString n
  | .il ls => toString ls

/-- str(v) of a decoded attribute value for the addr/prefixlen join. -/
def maValStr : MAttr → String
  | .v x => valPyStr x
  | .labels ls => toString ls
  | _ => ""

/-- Python truthiness of a decoded attribute value: a scalar by its own
truthiness, a label stack by non-emptiness, other decoded objects are
truthy. -/
def maTruthy : Option MAttr → Bool
  | none => false
  | some (.v x) => x.truthy
  | some (.labels ls) => ¬ ls.isEmpty
  | some _ => true

def RDct.scopeOf (r : RDct) : Option PVal :=
  r.gf ("ipdb_scope")

/-- A freshly constructed route entity: BaseRoute.__init__ presets only
ipdb_priority = 0 (route.py 156-159). -/
def freshRoute : RDct :=
  .mk [("ipdb_priority", some (PVal.i 0))] none none none []

/-- The stripping of a merged multipath segment (route.py 200-205):
del nh['dst'], nh['ipdb_scope'], nh['ipdb_priority'], nh['multipath'],
nh['metrics']. -/
def stripSeg (d : RDct) : RDct :=
  ((((d.delF ("dst")).delF ("ipdb_scope")).delF ("ipdb_priority")).setMP []).setMetrics none

/-- The multipath removal loop of load_netlink (route.py 181-183): every
raw value of a snapshot of the set is removed through del_nh. -/
def clearMP (r : RDct) : Except PyErr RDct := do
  let mp ← (r.multipath.map (fun e => e.2)).foldlM (fun acc p => nhsRemove acc p) r.multipath
  pure (r.setMP mp)

/-- One header field copied by the items loop of load_netlink through
Route.__setitem__: scalar names are stored directly (the encap_type /
type / proto name-translation tables are external and modelled as
identity, since their .get(value, value) falls back to the value);
the nested-object names would take the dedicated branches of
__setitem__, which a scalar header value cannot reach - rtmsg headers
never carry those names. -/
def setHeaderField (isM : Bool) (r : RDct) (k : String) (v : PVal) : Except PyErr RDct :=
  if k = "encap" ∨ k = "metrics" ∨ k = "multipath" ∨ (isM ∧ k = "via") then
    .error .typeErr
  else .ok (r.setF k (some v))

/-- One non-multipath attribute branch of the merge loop of
load_netlink (route.py 188-219): metrics replaced wholesale with
normalized names; encap labels joined into the encap object; via loaded
into the via object (the ordinary Route class has no via object to open,
so RTA_VIA fails on it); newdst normalized to its label list; any other
attribute stored under its normalized name. -/
def attrStepNonMP (isM : Bool) (r : RDct) (norm : String) (a : MAttr) :
    Except PyErr RDct :=
  if norm = "metrics" then
    match a with
    | .nested kv => pure (r.setMetrics (some (kv.map (fun e => (rtaxToName e.1, e.2)))))
    | _ => .error .attrErr
  else if norm = "encap" then
    match a with
    | .enc ls =>
        let e := r.encap.getD (none, none)
        pure (r.setEncap (some (e.1, some (PVal.s (joinLabels ls)))))
    | _ => .error .attrErr
  else if norm = "via" then
    (if isM then
      match a with
      | .nested kv => pure (r.setVia (some (kv.lookup ("family"), kv.lookup ("addr"))))
      | _ => .error .typeErr
    else .error .attrErr)
  else if norm = "newdst" then
    match a with
    | .labels ls => pure (r.setF ("newdst") (some (PVal.il ls)))
    | _ => .error .typeErr
  else
    match a with
    | .v x => pure (r.setF norm (some x))
    | .labels ls => pure (r.setF norm (some (PVal.il ls)))
    | _ => pure (r.setF norm none)

/-- The pre-merge steps of load_netlink: set the scope to system, copy
the header fields, remove every existing multipath segment. -/
def loadPre (isM : Bool) (r : RDct) (flds : List (String × PVal)) :
    Except PyErr RDct := do
  let r0 := r.setF ("ipdb_scope") (some (PVal.s ("system")))
  let r1 ← flds.foldlM (fun acc kv => setHeaderField isM acc kv.1 kv.2) r0
  clearMP r1

/-- The dst computation of load_netlink (route.py 221-231): dst is
addr/prefixlen (the literal default when the attribute is falsy) for
ordinary families, or the raw MPLS label. -/
def dstStep (flds : List (String × PVal)) (attrs : List (String × MAttr))
    (r3 : RDct) : Except PyErr RDct :=
  if flds.lookup ("family") = some (PVal.i afMpls) then
    match List.lookup ("RTA_DST") attrs with
    | some (.labels (l :: _)) => pure (r3.setF ("dst") (some (PVal.i l)))
    | some (.labels []) => pure (r3.setF ("dst") (some (PVal.il [])))
    | some _ => .error .typeErr
    | none => pure (r3.setF ("dst") none)
  else
    (if maTruthy (List.lookup ("RTA_DST") attrs) then
      match List.lookup ("RTA_DST") attrs with
      | some a =>
          match flds.lookup ("dst_len") with
          | some l => pure (r3.setF ("dst")
              (some (PVal.s (maValStr a ++ "/" ++ valPyStr l))))
          | none => .error .keyErr
      | none => .error .keyErr
    else pure (r3.setF ("dst") (some (PVal.s ("default")))))

/-- The encap_type fixup of load_netlink (route.py 233-243): move
encap_type into the encap object when the message carries RTA_ENCAP,
else clear encap and encap_type (for the ordinary Route class the encap
read materializes the object, so the clear always fires there). -/
def encapFix (isM : Bool) (attrs : List (String × MAttr)) (r4 : RDct) : RDct :=
  if (List.lookup ("RTA_ENCAP") attrs).isSome then
    match r4.gf ("encap_type") with
    | some et =>
        let e := r4.encap.getD (none, none)
        (r4.setEncap (some (some et, e.2))).setF ("encap_type") none
    | none => r4
  else if (¬ isM) ∨ r4.encap.isSome then
    (r4.setF ("encap_type") none).setEncap (some (none, none))
  else r4

/-- The metrics drop of load_netlink (route.py 245-248). -/
def metricsFix (isM : Bool) (attrs : List (String × MAttr)) (r5 : RDct) : RDct :=
  if (List.lookup ("RTA_METRICS") attrs).isNone ∧ ((¬ isM) ∨ r5.metrics.isSome) then
    r5.setMetrics (some [])
  else r5

/-- The via drop of load_netlink (route.py 250-253). -/
def viaFix (isM : Bool) (attrs : List (String × MAttr)) (r6 : RDct) : RDct :=
  if (List.lookup ("RTA_VIA") attrs).isNone ∧ (isM ∨ r6.via.isSome) then
    r6.setVia (some (none, none))
  else r6

/-- The final cleanup of load_netlink (route.py 255-258): the transient
decode-only fields are dropped. -/
def cleanupStep (r7 : RDct) : RDct :=
  (((r7.delF ("attrs")).delF ("header")).delF ("event")).delF ("cacheinfo")

/-- The post-merge steps of load_netlink (route.py 221-258). -/
def loadPost (isM : Bool) (flds : List (String × PVal))
    (attrs : List (String × MAttr)) (r3 : RDct) : Except PyErr RDct :=
  (dstStep flds attrs r3).map (fun r4 =>
    cleanupStep (viaFix isM attrs (metricsFix isM attrs (encapFix isM attrs r4))))

mutual
/-- A computable structural size of a message, strictly dominating the
multipath nesting depth; it drives the depth-bounded evaluator below. -/
def msgSz : Msg → Nat
  | .mk _ attrs => 1 + attrsSz attrs

def attrsSz : List (String × MAttr) → Nat
  | [] => 0
  | na :: t => 1 + attrSz na.2 + attrsSz t

def attrSz : MAttr → Nat
  | .mp ms => 1 + msgsSz ms
  | _ => 0

def msgsSz : List Msg → Nat
  | [] => 0
  | m :: t => 1 + msgSz m + msgsSz t
end

/-- One step of the attribute merge loop of load_netlink (route.py
186-219), parametrized by the function that merges one multipath record
(the recursive load_netlink call, depth-bounded below): the multipath
branch merges each record into a fresh route of the same class, strips
it of the fields a nexthop must not carry, and adds it to the set; the
other branches are attrStepNonMP (the branch guards are mutually
exclusive on the normalized name, so testing multipath first is
equivalent). -/
def attrStepG (ln : Msg → Except PyErr RDct) (isM : Bool) (r : RDct)
    (name : String) (a : MAttr) : Except PyErr RDct :=
  if nlaToName name = "multipath" then
    match a with
    | .mp ms => ms.foldlM (fun acc rec => do
        let nh ← ln rec
        let mp2 ← nhsAdd acc.multipath (.rt isM (stripSeg nh))
        pure (acc.setMP mp2)) r
    | _ => .error .typeErr
  else attrStepNonMP isM r (nlaToName name) a

/-- The attribute merge loop of load_netlink, parametrized like
attrStepG. -/
def procAttrsG (ln : Msg → Except PyErr RDct) (isM : Bool) (r : RDct)
    (as : List (String × MAttr)) : Except PyErr RDct :=
  as.foldlM (fun acc na => attrStepG ln isM acc na.1 na.2) r

/-- The depth-bounded evaluator of load_netlink: the recursion into
multipath records decreases the depth; a depth of sizeOf of the message
always suffices (loadNetlink_unfold below), so the depth-0 failure is
unreachable through loadNetlink. -/
def loadNetlinkD : Nat → Bool → RDct → Msg → Except PyErr RDct
  | 0, _, _, _ => .error .runtime
  | d + 1, isM, r, m =>
    match m with
    | .mk flds attrs =>
      if r.scopeOf = some (PVal.s ("locked")) then .ok r
      else do
        let r2 ← loadPre isM r flds
        let r3 ← procAttrsG (loadNetlinkD d isM freshRoute) isM r2 attrs
        loadPost isM flds attrs r3

/-- BaseRoute.load_netlink (route.py 171-258): no-op while locked;
otherwise the pre-merge steps (scope to system, header copy, multipath
removal), the attribute merge loop, and the post-merge normalization. -/
def loadNetlink (isM : Bool) (r : RDct) (m : Msg) : Except PyErr RDct :=
  loadNetlinkD (msgSz m) isM r m

@[simp] theorem multipath_setF (r : RDct) (k : String) (v : Option PVal) :
    (r.setF k v).multipath = r.multipath := by
  cases r; rfl

@[simp] theorem multipath_delF (r : RDct) (k : String) :
    (r.delF k).multipath = r.multipath := by
  cases r; rfl

@[simp] theorem multipath_setMetrics (r : RDct) (m : Option (List (String × PVal))) :
    (r.setMetrics m).multipath = r.multipath := by
  cases r; rfl

@[simp] theorem multipath_setEncap (r : RDct) (e : Option (Option PVal × Option PVal)) :
    (r.setEncap e).multipath = r.multipath := by
  cases r; rfl

@[simp] theorem multipath_setVia (r : RDct) (v : Option (Option PVal × Option PVal)) :
    (r.setVia v).multipath = r.multipath := by
  cases r; rfl

@[simp] theorem multipath_setMP (r : RDct) (mp : List (NHKey × NhPrime)) :
    (r.setMP mp).multipath = mp := by
  cases r; rfl

@[simp] theorem fields_setMP (r : RDct) (mp : List (NHKey × NhPrime)) :
    (r.setMP mp).fields = r.fields := by
  cases r; rfl

@[simp] theorem fields_setMetrics (r : RDct) (m : Option (List (String × PVal))) :
    (r.setMetrics m).fields = r.fields := by
  cases r; rfl

@[simp] theorem fields_setEncap (r : RDct) (e : Option (Option PVal × Option PVal)) :
    (r.setEncap e).fields = r.fields := by
  cases r; rfl

@[simp] theorem fields_setVia (r : RDct) (v : Option (Option PVal × Option PVal)) :
    (r.setVia v).fields = r.fields := by
  cases r; rfl

@[simp] theorem fields_setF (r : RDct) (k : String) (v : Option PVal) :
    (r.setF k v).fields = setAssoc r.fields k v := by
  cases r; rfl

@[simp] theorem fields_delF (r : RDct) (k : String) :
    (r.delF k).fields = delAssoc r.fields k := by
  cases r; rfl

@[simp] theorem metrics_setMP (r : RDct) (mp : List (NHKey × NhPrime)) :
    (r.setMP mp).metrics = r.metrics := by
  cases r; rfl

@[simp] theorem metrics_setF (r : RDct) (k : String) (v : Option PVal) :
    (r.setF k v).metrics = r.metrics := by
  cases r; rfl

@[simp] theorem metrics_setMetrics (r : RDct) (m : Option (List (String × PVal))) :
    (r.setMetrics m).metrics = m := by
  cases r; rfl

theorem lookup_setAssoc_self (fs : List (String × Option PVal)) (k : String) (v : Option PVal) :
    (setAssoc fs k v).lookup k = some v := by
  induction fs with
  | nil => simp [setAssoc, List.lookup]
  | cons e t ih =>
      unfold setAssoc
      by_cases hek : e.1 = k
      · rw [if_pos hek]
        simp [List.lookup]
      · rw [if_neg hek]
        simp only [List.lookup]
        rw [beq_false_of_ne (Ne.symm hek)]
        exact ih

theorem lookup_setAssoc_ne (fs : List (String × Option PVal)) (k k2 : String)
    (v : Option PVal) (h : k2 ≠ k) :
    (setAssoc fs k v).lookup k2 = fs.lookup k2 := by
  induction fs with
  | nil => simp [setAssoc, List.lookup, beq_false_of_ne h]
  | cons e t ih =>
      unfold setAssoc
      by_cases hek : e.1 = k
      · rw [if_pos hek]
        have h2 : k2 ≠ e.1 := fun he => h (he.trans hek)
        simp [List.lookup, beq_false_of_ne h, beq_false_of_ne h2]
      · rw [if_neg hek]
        by_cases h2 : k2 = e.1
        · simp [List.lookup, beq_iff_eq.mpr h2]
        · simp [List.lookup, beq_false_of_ne h2, ih]

theorem lookup_delAssoc_ne (fs : List (String × Option PVal)) (k k2 : String)
    (h : k2 ≠ k) :
    (delAssoc fs k).lookup k2 = fs.lookup k2 := by
  induction fs with
  | nil => rfl
  | cons e t ih =>
      unfold delAssoc
      by_cases hek : e.1 = k
      · rw [if_pos hek]
        have h2 : k2 ≠ e.1 := fun he => h (he.trans hek)
        simp [List.lookup, beq_false_of_ne h2]
      · rw [if_neg hek]
        by_cases h2 : k2 = e.1
        · simp [List.lookup, beq_iff_eq.mpr h2]
        · simp [List.lookup, beq_false_of_ne h2, ih]

@[simp] theorem except_bind_ok {α β : Type} (x : α) (f : α → Except PyErr β) :
    (Except.ok x : Except PyErr α) >>= f = f x := rfl

@[simp] theorem except_bind_err {α β : Type} (e : PyErr) (f : α → Except PyErr β) :
    (Except.error e : Except PyErr α) >>= f = Except.error e := rfl

@[simp] theorem except_map_ok {α β : Type} (x : α) (f : α → β) :
    Except.map f (Except.ok x : Except PyErr α) = Except.ok (f x) := rfl

@[simp] theorem except_map_err {α β : Type} (e : PyErr) (f : α → β) :
    Except.map f (Except.error e : Except PyErr α) = Except.error e := rfl

@[simp] theorem except_pure {α : Type} (x : α) :
    (pure x : Except PyErr α) = Except.ok x := rfl

@[simp] theorem setMP_setMP (r : RDct) (a b : List (NHKey × NhPrime)) :
    (r.setMP a).setMP b = r.setMP b := by
  cases r; rfl

@[simp] theorem setMP_self (r : RDct) : r.setMP r.multipath = r := by
  cases r; rfl

theorem nhsRemove_exact {s : NHS} {p : NhPrime} {k : NHKey}
    (hmk : makeNh p = .ok (.key k)) (hk : k ∈ lsKeys s) :
    nhsRemove s p = .ok (delK s k) := by
  unfold nhsRemove
  rw [hmk]
  simp only [except_bind_ok]
  rw [if_pos hk]
  rfl

theorem remove_fold_clears : ∀ s : NHS,
    (lsKeys s).Nodup → (∀ e ∈ s, makeNh e.2 = .ok (.key e.1)) →
    (s.map (fun e => e.2)).foldlM (fun acc p => nhsRemove acc p) s = .ok [] := by
  intro s
  induction s with
  | nil => intro _ _; rfl
  | cons e t ih =>
      intro hnd hmk
      have hmke : makeNh e.2 = .ok (.key e.1) := hmk e (by simp)
      have hk : e.1 ∈ lsKeys (e :: t) := by simp [lsKeys]
      have hdel : delK (e :: t) e.1 = t := by
        unfold delK
        rw [if_pos rfl]
      rw [List.map_cons, List.foldlM_cons, nhsRemove_exact hmke hk, hdel]
      simp only [except_bind_ok]
      exact ih (by simpa [lsKeys] using hnd.of_cons)
        (fun x hx => hmk x (List.mem_cons_of_mem _ hx))

theorem clearMP_wf {r : RDct}
    (hnd : (lsKeys r.multipath).Nodup)
    (hmk : ∀ e ∈ r.multipath, makeNh e.2 = .ok (.key e.1)) :
    clearMP r = .ok (r.setMP []) := by
  unfold clearMP
  rw [remove_fold_clears r.multipath hnd hmk]
  simp


/-- The multipath set produced by merging a list of nexthop records
(the effect of the multipath branch of load_netlink on the set alone). -/
def segsFold (isM : Bool) (mp : NHS) (ms : List Msg) : Except PyErr NHS :=
  ms.foldlM (fun acc rec => do
      let nh ← loadNetlink isM freshRoute rec
      nhsAdd acc (.rt isM (stripSeg nh))) mp

/-- Success or failure of a non-multipath attribute branch; it depends
only on the attribute shape and the class, never on the route state. -/
def attrOk (isM : Bool) (norm : String) (a : MAttr) : Except PyErr Unit :=
  if norm = "metrics" then
    match a with
    | .nested _ => .ok ()
    | _ => .error .attrErr
  else if norm = "encap" then
    match a with
    | .enc _ => .ok ()
    | _ => .error .attrErr
  else if norm = "via" then
    (if isM then
      match a with
      | .nested _ => .ok ()
      | _ => .error .typeErr
    else .error .attrErr)
  else if norm = "newdst" then
    match a with
    | .labels _ => .ok ()
    | _ => .error .typeErr
  else .ok ()

/-- The effect of one attribute on the multipath set. -/
def attrsMPStep (isM : Bool) (mp : NHS) (na : String × MAttr) : Except PyErr NHS :=
  if nlaToName na.1 = "multipath" then
    match na.2 with
    | .mp ms => segsFold isM mp ms
    | _ => .error .typeErr
  else (attrOk isM (nlaToName na.1) na.2).map (fun _ => mp)

/-- The multipath set load_netlink ends with, computed from the
attribute list and the starting set alone. -/
def attrsMPFold (isM : Bool) (mp : NHS) (as : List (String × MAttr)) :
    Except PyErr NHS :=
  as.foldlM (attrsMPStep isM) mp

theorem attrsMPStep_mpArm (isM : Bool) (mp : NHS) (nm : String) (ms : List Msg)
    (hn : nlaToName nm = "multipath") :
    attrsMPStep isM mp (nm, .mp ms) = segsFold isM mp ms := by
  unfold attrsMPStep
  rw [if_pos hn]

theorem attrsMPStep_nonmp (isM : Bool) (mp : NHS) (na : String × MAttr)
    (hn : ¬ nlaToName na.1 = "multipath") :
    attrsMPStep isM mp na = (attrOk isM (nlaToName na.1) na.2).map (fun _ => mp) := by
  unfold attrsMPStep
  rw [if_neg hn]

theorem attrsMPStep_mpEq (isM : Bool) (mp : NHS) (na : String × MAttr) (ms : List Msg)
    (hn : nlaToName na.1 = "multipath") (ha : na.2 = .mp ms) :
    attrsMPStep isM mp na = segsFold isM mp ms := by
  unfold attrsMPStep
  rw [if_pos hn, ha]

theorem foldlM_congr {α β : Type} (f g : β → α → Except PyErr β) (l : List α)
    (h : ∀ b, ∀ x ∈ l, f b x = g b x) : ∀ init, l.foldlM f init = l.foldlM g init := by
  induction l with
  | nil => intro init; rfl
  | cons x t ih =>
      intro init
      rw [List.foldlM_cons, List.foldlM_cons, h init x (by simp)]
      cases g init x with
      | error e => rfl
      | ok b =>
          simp only [except_bind_ok]
          exact ih (fun b2 x2 hx2 => h b2 x2 (List.mem_cons_of_mem _ hx2)) b

theorem procAttrsG_congr (ln1 ln2 : Msg → Except PyErr RDct) (isM : Bool)
    (as : List (String × MAttr))
    (h : ∀ na ∈ as, ∀ ms, na.2 = MAttr.mp ms → ∀ rec ∈ ms, ln1 rec = ln2 rec) :
    ∀ r, procAttrsG ln1 isM r as = procAttrsG ln2 isM r as := by
  intro r
  unfold procAttrsG
  refine foldlM_congr _ _ _ ?_ r
  intro acc na hna
  unfold attrStepG
  by_cases hn : nlaToName na.1 = "multipath"
  · rw [if_pos hn, if_pos hn]
    cases ha : na.2 with
    | mp ms =>
        refine foldlM_congr _ _ _ ?_ acc
        intro b rec hrec
        rw [h na hna ms ha rec hrec]
    | v x => rfl
    | labels ls => rfl
    | enc ls => rfl
    | nested kv => rfl
  · rw [if_neg hn, if_neg hn]

theorem msgSz_lt_of_mem {rec : Msg} {ms : List Msg} (h : rec ∈ ms) :
    msgSz rec < msgsSz ms := by
  induction ms with
  | nil => simp at h
  | cons m t ih =>
      rw [msgsSz]
      rcases List.mem_cons.mp h with h1 | h1
      · rw [h1]; omega
      · have := ih h1; omega

theorem attrSz_lt_of_mem {na : String × MAttr} {attrs : List (String × MAttr)}
    (h : na ∈ attrs) : attrSz na.2 < attrsSz attrs := by
  induction attrs with
  | nil => simp at h
  | cons x t ih =>
      rw [attrsSz]
      rcases List.mem_cons.mp h with h1 | h1
      · rw [h1]; omega
      · have := ih h1; omega

theorem msgSz_rec_lt {na : String × MAttr} {ms : List Msg} {rec : Msg}
    {attrs : List (String × MAttr)}
    (hna : na ∈ attrs) (ha : na.2 = MAttr.mp ms) (hrec : rec ∈ ms) :
    msgSz rec < attrsSz attrs := by
  have h1 : msgSz rec < msgsSz ms := msgSz_lt_of_mem hrec
  have h2 : attrSz na.2 = 1 + msgsSz ms := by rw [ha]; rfl
  have h3 : attrSz na.2 < attrsSz attrs := attrSz_lt_of_mem hna
  omega

theorem msgSz_mk (flds : List (String × PVal)) (attrs : List (String × MAttr)) :
    msgSz (.mk flds attrs) = 1 + attrsSz attrs := rfl

theorem loadNetlinkD_succ (d : Nat) (isM : Bool) (r : RDct)
    (flds : List (String × PVal)) (attrs : List (String × MAttr)) :
    loadNetlinkD (d + 1) isM r (.mk flds attrs) =
      (if r.scopeOf = some (PVal.s ("locked")) then .ok r
       else loadPre isM r flds >>= fun r2 =>
         procAttrsG (loadNetlinkD d isM freshRoute) isM r2 attrs >>= fun r3 =>
           loadPost isM flds attrs r3) := rfl

theorem loadNetlinkD_adequate : ∀ d : Nat, ∀ m : Msg, ∀ isM : Bool, ∀ r : RDct,
    msgSz m ≤ d → loadNetlinkD d isM r m = loadNetlink isM r m := by
  intro d
  induction d using Nat.strong_induction_on with
  | _ d ih =>
      intro m isM r hm
      match d, m with
      | 0, .mk flds attrs =>
          exfalso
          rw [msgSz_mk] at hm
          omega
      | d + 1, .mk flds attrs =>
          unfold loadNetlink
          rw [msgSz_mk] at hm ⊢
          have hk : 1 + attrsSz attrs = attrsSz attrs + 1 := by omega
          rw [hk, loadNetlinkD_succ, loadNetlinkD_succ]
          by_cases hsc : RDct.scopeOf r = some (PVal.s ("locked"))
          · rw [if_pos hsc, if_pos hsc]
          · rw [if_neg hsc, if_neg hsc]
            have hcong : ∀ r2, procAttrsG (loadNetlinkD d isM freshRoute) isM r2 attrs =
                procAttrsG (loadNetlinkD (attrsSz attrs) isM freshRoute) isM r2 attrs := by
              intro r2
              refine procAttrsG_congr _ _ isM attrs ?_ r2
              intro na hna ms ha rec hrecm
              have hlt : msgSz rec < attrsSz attrs := msgSz_rec_lt hna ha hrecm
              rw [ih d (by omega) rec isM freshRoute (by omega),
                  ih (attrsSz attrs) (by omega) rec isM freshRoute (by omega)]
            cases hpre : loadPre isM r flds with
            | error e => simp only [except_bind_err]
            | ok r2 =>
                simp only [except_bind_ok]
                rw [hcong r2]

theorem loadNetlink_unfold (isM : Bool) (r : RDct) (flds : List (String × PVal))
    (attrs : List (String × MAttr)) :
    loadNetlink isM r (.mk flds attrs) =
      (if r.scopeOf = some (PVal.s ("locked")) then .ok r
       else loadPre isM r flds >>= fun r2 =>
         procAttrsG (fun rec => loadNetlink isM freshRoute rec) isM r2 attrs >>= fun r3 =>
           loadPost isM flds attrs r3) := by
  show loadNetlinkD (msgSz (.mk flds attrs)) isM r (.mk flds attrs) = _
  rw [msgSz_mk]
  have hk : 1 + attrsSz attrs = attrsSz attrs + 1 := by omega
  rw [hk, loadNetlinkD_succ]
  by_cases hsc : RDct.scopeOf r = some (PVal.s ("locked"))
  · rw [if_pos hsc, if_pos hsc]
  · rw [if_neg hsc, if_neg hsc]
    have hcong : ∀ r2, procAttrsG (loadNetlinkD (attrsSz attrs) isM freshRoute) isM r2 attrs =
        procAttrsG (fun rec => loadNetlink isM freshRoute rec) isM r2 attrs := by
      intro r2
      refine procAttrsG_congr _ _ isM attrs ?_ r2
      intro na hna ms ha rec hrecm
      have hlt : msgSz rec < attrsSz attrs := msgSz_rec_lt hna ha hrecm
      exact loadNetlinkD_adequate (attrsSz attrs) rec isM freshRoute (by omega)
    cases hpre : loadPre isM r flds with
    | error e => simp only [except_bind_err]
    | ok r2 =>
        simp only [except_bind_ok]
        rw [hcong r2]

theorem attrStep_multipath (isM : Bool) (r : RDct) (norm : String) (a : MAttr) :
    (attrStepNonMP isM r norm a).map RDct.multipath =
      (attrOk isM norm a).map (fun _ => r.multipath) := by
  unfold attrStepNonMP attrOk
  by_cases h1 : norm = "metrics"
  · rw [if_pos h1, if_pos h1]; cases a <;> simp
  · rw [if_neg h1, if_neg h1]
    by_cases h2 : norm = "encap"
    · rw [if_pos h2, if_pos h2]; cases a <;> simp
    · rw [if_neg h2, if_neg h2]
      by_cases h3 : norm = "via"
      · rw [if_pos h3, if_pos h3]
        cases isM
        · simp
        · simp only [if_pos rfl]
          cases a <;> simp
      · rw [if_neg h3, if_neg h3]
        by_cases h4 : norm = "newdst"
        · rw [if_pos h4, if_pos h4]; cases a <;> simp
        · rw [if_neg h4, if_neg h4]
          cases a <;> simp

theorem innerFold_eq (isM : Bool) (ms : List Msg) : ∀ r : RDct,
    ms.foldlM (fun acc rec => do
        let nh ← loadNetlink isM freshRoute rec
        let mp2 ← nhsAdd acc.multipath (.rt isM (stripSeg nh))
        pure (acc.setMP mp2)) r =
      (segsFold isM r.multipath ms).map (fun mp => r.setMP mp) := by
  induction ms with
  | nil => intro r; simp [segsFold, List.foldlM_nil]
  | cons rec rest ih =>
      intro r
      rw [List.foldlM_cons]
      unfold segsFold
      rw [List.foldlM_cons]
      cases hnh : loadNetlink isM freshRoute rec with
      | error e => simp
      | ok nh =>
          simp only [except_bind_ok]
          cases hadd : nhsAdd r.multipath (.rt isM (stripSeg nh)) with
          | error e => simp
          | ok mp2 =>
              simp only [except_bind_ok, except_pure]
              have h2 := ih (r.setMP mp2)
              simp only [multipath_setMP, setMP_setMP] at h2
              unfold segsFold at h2
              exact h2

theorem attrStepG_mp_wrap (isM : Bool) (r : RDct) (name : String) (ms : List Msg)
    (hn : nlaToName name = "multipath") :
    attrStepG (fun rec => loadNetlink isM freshRoute rec) isM r name (.mp ms) =
      (segsFold isM r.multipath ms).map (fun mp => r.setMP mp) := by
  unfold attrStepG
  rw [if_pos hn]
  exact innerFold_eq isM ms r

theorem attrStepG_nonmp (ln : Msg → Except PyErr RDct) (isM : Bool) (r : RDct)
    (name : String) (a : MAttr) (hn : ¬ nlaToName name = "multipath") :
    attrStepG ln isM r name a = attrStepNonMP isM r (nlaToName name) a := by
  unfold attrStepG
  rw [if_neg hn]

theorem procAttrs_mp (isM : Bool) (as : List (String × MAttr)) : ∀ r : RDct,
    (procAttrsG (fun rec => loadNetlink isM freshRoute rec) isM r as).map RDct.multipath =
      attrsMPFold isM r.multipath as := by
  induction as with
  | nil => intro r; simp [procAttrsG, attrsMPFold, List.foldlM_nil]
  | cons na rest ih =>
      intro r
      unfold procAttrsG attrsMPFold
      rw [List.foldlM_cons, List.foldlM_cons]
      by_cases hn : nlaToName na.1 = "multipath"
      · cases ha : na.2 with
        | mp ms =>
            rw [attrsMPStep_mpEq isM r.multipath na ms hn ha,
                attrStepG_mp_wrap isM r na.1 ms hn]
            cases hs : segsFold isM r.multipath ms with
            | error e => simp
            | ok mp2 =>
                simp only [except_map_ok, except_bind_ok]
                have h3 := ih (r.setMP mp2)
                unfold procAttrsG attrsMPFold at h3
                simpa using h3
        | v x =>
            have hstep : attrsMPStep isM r.multipath na = .error .typeErr := by
              unfold attrsMPStep
              rw [if_pos hn, ha]
            rw [hstep]
            unfold attrStepG
            rw [if_pos hn]
            simp
        | labels ls =>
            have hstep : attrsMPStep isM r.multipath na = .error .typeErr := by
              unfold attrsMPStep
              rw [if_pos hn, ha]
            rw [hstep]
            unfold attrStepG
            rw [if_pos hn]
            simp
        | enc ls =>
            have hstep : attrsMPStep isM r.multipath na = .error .typeErr := by
              unfold attrsMPStep
              rw [if_pos hn, ha]
            rw [hstep]
            unfold attrStepG
            rw [if_pos hn]
            simp
        | nested kv =>
            have hstep : attrsMPStep isM r.multipath na = .error .typeErr := by
              unfold attrsMPStep
              rw [if_pos hn, ha]
            rw [hstep]
            unfold attrStepG
            rw [if_pos hn]
            simp
      · rw [attrStepG_nonmp _ isM r na.1 na.2 hn, attrsMPStep_nonmp isM r.multipath na hn]
        have hrel := attrStep_multipath isM r (nlaToName na.1) na.2
        cases hstep : attrStepNonMP isM r (nlaToName na.1) na.2 with
        | error e =>
            rw [hstep] at hrel
            cases hok : attrOk isM (nlaToName na.1) na.2 with
            | error e2 =>
                rw [hok] at hrel
                simp only [except_map_err] at hrel
                simp only [except_bind_err, except_map_err]
                exact hrel
            | ok u => rw [hok] at hrel; simp at hrel
        | ok r2 =>
            rw [hstep] at hrel
            cases hok : attrOk isM (nlaToName na.1) na.2 with
            | error e2 => rw [hok] at hrel; simp at hrel
            | ok u =>
                rw [hok] at hrel
                simp only [except_map_ok, Except.ok.injEq] at hrel
                simp only [except_bind_ok, except_map_ok]
                have h3 := ih r2
                unfold procAttrsG attrsMPFold at h3
                rw [h3, hrel]

theorem mem_delK_sub {s : NHS} {k : NHKey} {e : NHKey × NhPrime}
    (h : e ∈ delK s k) : e ∈ s := by
  induction s with
  | nil => simp [delK] at h
  | cons a t ih =>
      simp only [delK] at h
      by_cases hak : a.1 = k
      · rw [if_pos hak] at h
        exact List.mem_cons_of_mem _ h
      · rw [if_neg hak] at h
        rcases List.mem_cons.mp h with h1 | h1
        · exact h1 ▸ List.mem_cons_self _ _
        · exact List.mem_cons_of_mem _ (ih h1)

theorem nhsAdd_entries {s : NHS} {p : NhPrime} {s2 : NHS}
    (h : nhsAdd s p = .ok s2) : ∀ e ∈ s2, e.2 = p ∨ e ∈ s := by
  intro e he
  unfold nhsAdd at h
  cases hmk : makeNh p with
  | error er => rw [hmk] at h; simp at h
  | ok kv =>
      rw [hmk] at h
      cases kv with
      | scalar v => simp at h
      | key k =>
          simp only [except_bind_ok, except_pure, Except.ok.injEq] at h
          subst h
          have hsub : ∀ x ∈ (if skeyK k ∈ lsKeys s then delK s (skeyK k) else s), x ∈ s := by
            intro x hx
            by_cases hsk : skeyK k ∈ lsKeys s
            · rw [if_pos hsk] at hx; exact mem_delK_sub hx
            · rw [if_neg hsk] at hx; exact hx
          unfold lsAdd at he
          by_cases hkm : k ∈ lsKeys (if skeyK k ∈ lsKeys s then delK s (skeyK k) else s)
          · rw [if_pos hkm] at he
            rcases List.mem_map.mp he with ⟨x, hx, hxe⟩
            by_cases hxk : x.1 = k
            · rw [if_pos hxk] at hxe
              left; rw [← hxe]
            · rw [if_neg hxk] at hxe
              right; exact hxe ▸ hsub x hx
          · rw [if_neg hkm] at he
            rcases List.mem_append.mp he with h1 | h1
            · right; exact hsub _ h1
            · left
              have : e = (k, p) := List.mem_singleton.mp h1
              rw [this]

theorem segsFold_entries (isM : Bool) (ms : List Msg) : ∀ mp mp2 : NHS,
    segsFold isM mp ms = .ok mp2 →
    ∀ e ∈ mp2, e ∈ mp ∨
      ∃ d0 rec, rec ∈ ms ∧ loadNetlink isM freshRoute rec = .ok d0 ∧
        e.2 = NhPrime.rt isM (stripSeg d0) := by
  induction ms with
  | nil =>
      intro mp mp2 h e he
      unfold segsFold at h
      simp only [List.foldlM_nil] at h
      cases h
      left; exact he
  | cons rec rest ih =>
      intro mp mp2 h e he
      unfold segsFold at h
      rw [List.foldlM_cons] at h
      cases hnh : loadNetlink isM freshRoute rec with
      | error er => rw [hnh] at h; simp at h
      | ok nh =>
          rw [hnh] at h
          simp only [except_bind_ok] at h
          cases hadd : nhsAdd mp (.rt isM (stripSeg nh)) with
          | error er => rw [hadd] at h; simp at h
          | ok mpx =>
              rw [hadd] at h
              simp only [except_bind_ok] at h
              have hih := ih mpx mp2 (by unfold segsFold; exact h) e he
              rcases hih with h1 | ⟨d0, rec2, hrec2, hld, he2⟩
              · rcases nhsAdd_entries hadd e h1 with h2 | h2
                · right; exact ⟨nh, rec, by simp, hnh, h2⟩
                · left; exact h2
              · right; exact ⟨d0, rec2, List.mem_cons_of_mem _ hrec2, hld, he2⟩

theorem attrsMPFold_entries (isM : Bool) (as : List (String × MAttr)) :
    ∀ mp mp2 : NHS, attrsMPFold isM mp as = .ok mp2 →
    ∀ e ∈ mp2, e ∈ mp ∨
      ∃ d0 rec, loadNetlink isM freshRoute rec = .ok d0 ∧
        e.2 = NhPrime.rt isM (stripSeg d0) := by
  induction as with
  | nil =>
      intro mp mp2 h e he
      unfold attrsMPFold at h
      simp only [List.foldlM_nil] at h
      cases h
      left; exact he
  | cons na rest ih =>
      intro mp mp2 h e he
      unfold attrsMPFold at h
      rw [List.foldlM_cons] at h
      by_cases hn : nlaToName na.1 = "multipath"
      · cases ha : na.2 with
        | mp ms =>
            rw [attrsMPStep_mpEq isM mp na ms hn ha] at h
            cases hs : segsFold isM mp ms with
            | error er => rw [hs] at h; simp at h
            | ok mpx =>
                rw [hs] at h
                simp only [except_bind_ok] at h
                have hih := ih mpx mp2 (by unfold attrsMPFold; exact h) e he
                rcases hih with h1 | ⟨d0, rec2, hld, he2⟩
                · rcases segsFold_entries isM ms mp mpx hs e h1 with h2 | ⟨d0, rec2, _, hld, he2⟩
                  · left; exact h2
                  · right; exact ⟨d0, rec2, hld, he2⟩
                · right; exact ⟨d0, rec2, hld, he2⟩
        | v x =>
            have hstep : attrsMPStep isM mp na = .error .typeErr := by
              unfold attrsMPStep
              rw [if_pos hn, ha]
            rw [hstep] at h
            simp at h
        | labels ls =>
            have hstep : attrsMPStep isM mp na = .error .typeErr := by
              unfold attrsMPStep
              rw [if_pos hn, ha]
            rw [hstep] at h
            simp at h
        | enc ls =>
            have hstep : attrsMPStep isM mp na = .error .typeErr := by
              unfold attrsMPStep
              rw [if_pos hn, ha]
            rw [hstep] at h
            simp at h
        | nested kv =>
            have hstep : attrsMPStep isM mp na = .error .typeErr := by
              unfold attrsMPStep
              rw [if_pos hn, ha]
            rw [hstep] at h
            simp at h
      · rw [attrsMPStep_nonmp isM mp na hn] at h
        cases hok : attrOk isM (nlaToName na.1) na.2 with
        | error er => rw [hok] at h; simp at h
        | ok u =>
            rw [hok] at h
            simp only [except_map_ok, except_bind_ok] at h
            exact ih mp mp2 (by unfold attrsMPFold; exact h) e he

/-- Uniqueness of the keys of a field mapping (a dict invariant). -/
abbrev fieldsND (r : RDct) : Prop := (r.fields.map Prod.fst).Nodup

theorem keys_delAssoc_sublist (fs : List (String × Option PVal)) (k : String) :
    ((delAssoc fs k).map Prod.fst).Sublist (fs.map Prod.fst) := by
  induction fs with
  | nil => simp [delAssoc]
  | cons e t ih =>
      unfold delAssoc
      by_cases hek : e.1 = k
      · rw [if_pos hek]
        simp only [List.map_cons]
        exact (List.Sublist.refl _).cons _
      · rw [if_neg hek]
        simp only [List.map_cons]
        exact ih.cons₂ _

theorem nodup_delAssoc {fs : List (String × Option PVal)} {k : String}
    (h : (fs.map Prod.fst).Nodup) : ((delAssoc fs k).map Prod.fst).Nodup :=
  h.sublist (keys_delAssoc_sublist fs k)

theorem mem_keys_setAssoc {fs : List (String × Option PVal)} {k k2 : String}
    {v : Option PVal} (h : k2 ∈ (setAssoc fs k v).map Prod.fst) :
    k2 ∈ fs.map Prod.fst ∨ k2 = k := by
  induction fs with
  | nil =>
      simp only [setAssoc, List.map_cons, List.map_nil] at h
      right
      simpa using h
  | cons e t ih =>
      unfold setAssoc at h
      by_cases hek : e.1 = k
      · rw [if_pos hek] at h
        simp only [List.map_cons] at h
        rcases List.mem_cons.mp h with h1 | h1
        · right; exact h1
        · left; simp [h1]
      · rw [if_neg hek] at h
        simp only [List.map_cons] at h
        rcases List.mem_cons.mp h with h1 | h1
        · left; simp [h1]
        · rcases ih h1 with h2 | h2
          · left; exact List.mem_cons_of_mem _ h2
          · right; exact h2

theorem nodup_setAssoc {fs : List (String × Option PVal)} {k : String}
    {v : Option PVal} (h : (fs.map Prod.fst).Nodup) :
    ((setAssoc fs k v).map Prod.fst).Nodup := by
  induction fs with
  | nil => simp [setAssoc]
  | cons e t ih =>
      unfold setAssoc
      simp only [List.map_cons, List.nodup_cons] at h
      by_cases hek : e.1 = k
      · rw [if_pos hek]
        simp only [List.map_cons, List.nodup_cons]
        exact ⟨hek ▸ h.1, h.2⟩
      · rw [if_neg hek]
        simp only [List.map_cons, List.nodup_cons]
        refine ⟨?_, ih h.2⟩
        intro hmem
        rcases mem_keys_setAssoc hmem with h1 | h1
        · exact h.1 h1
        · exact hek h1

theorem lookup_delAssoc_self {fs : List (String × Option PVal)} {k : String}
    (h : (fs.map Prod.fst).Nodup) : (delAssoc fs k).lookup k = none := by
  induction fs with
  | nil => rfl
  | cons e t ih =>
      unfold delAssoc
      simp only [List.map_cons, List.nodup_cons] at h
      by_cases hek : e.1 = k
      · rw [if_pos hek]
        subst hek
        clear ih
        induction t with
        | nil => rfl
        | cons e2 t2 ih2 =>
            simp only [List.map_cons, List.mem_cons, not_or] at h
            simp only [List.lookup]
            rw [beq_false_of_ne h.1.1]
            exact ih2 ⟨fun hm => h.1.2 hm, (List.nodup_cons.mp h.2).2⟩
      · rw [if_neg hek]
        simp only [List.lookup]
        rw [beq_false_of_ne (fun he => hek he.symm)]
        exact ih h.2

theorem attrStepNonMP_fields {isM : Bool} {r : RDct} {norm : String} {a : MAttr}
    {r2 : RDct} (h : attrStepNonMP isM r norm a = .ok r2) :
    r2.fields = r.fields ∨ ∃ v, r2.fields = setAssoc r.fields norm v := by
  unfold attrStepNonMP at h
  by_cases h1 : norm = "metrics"
  · rw [if_pos h1] at h
    cases a with
    | nested kv =>
        simp only [except_pure, Except.ok.injEq] at h
        left; rw [← h]; simp
    | v x => simp at h
    | labels ls => simp at h
    | enc ls => simp at h
    | mp ms => simp at h
  · rw [if_neg h1] at h
    by_cases h2 : norm = "encap"
    · rw [if_pos h2] at h
      cases a with
      | enc ls =>
          simp only [except_pure, Except.ok.injEq] at h
          left; rw [← h]; simp
      | v x => simp at h
      | labels ls => simp at h
      | nested kv => simp at h
      | mp ms => simp at h
    · rw [if_neg h2] at h
      by_cases h3 : norm = "via"
      · rw [if_pos h3] at h
        cases isM
        · simp at h
        · rw [if_pos rfl] at h
          cases a with
          | nested kv =>
              simp only [except_pure, Except.ok.injEq] at h
              left; rw [← h]; simp
          | v x => simp at h
          | labels ls => simp at h
          | enc ls => simp at h
          | mp ms => simp at h
      · rw [if_neg h3] at h
        by_cases h4 : norm = "newdst"
        · rw [if_pos h4] at h
          cases a with
          | labels ls =>
              simp only [except_pure, Except.ok.injEq] at h
              right
              exact ⟨some (PVal.il ls), by rw [← h, h4]; simp⟩
          | v x => simp at h
          | enc ls => simp at h
          | nested kv => simp at h
          | mp ms => simp at h
        · rw [if_neg h4] at h
          cases a with
          | v x =>
              simp only [except_pure, Except.ok.injEq] at h
              right
              exact ⟨some x, by rw [← h]; simp⟩
          | labels ls =>
              simp only [except_pure, Except.ok.injEq] at h
              right
              exact ⟨some (PVal.il ls), by rw [← h]; simp⟩
          | enc ls =>
              simp only [except_pure, Except.ok.injEq] at h
              right
              exact ⟨none, by rw [← h]; simp⟩
          | nested kv =>
              simp only [except_pure, Except.ok.injEq] at h
              right
              exact ⟨none, by rw [← h]; simp⟩
          | mp ms =>
              simp only [except_pure, Except.ok.injEq] at h
              right
              exact ⟨none, by rw [← h]; simp⟩

theorem attrStepNonMP_mpSlot {isM : Bool} {r : RDct} {norm : String} {a : MAttr}
    {r2 : RDct} (h : attrStepNonMP isM r norm a = .ok r2) :
    r2.multipath = r.multipath := by
  have hrel := attrStep_multipath isM r norm a
  rw [h] at hrel
  cases hok : attrOk isM norm a with
  | error e => rw [hok] at hrel; simp at hrel
  | ok u =>
      rw [hok] at hrel
      simp only [except_map_ok, Except.ok.injEq] at hrel
      exact hrel

theorem attrStepG_fields {isM : Bool} {r : RDct} {nm : String} {a : MAttr} {r2 : RDct}
    (h : attrStepG (fun rec => loadNetlink isM freshRoute rec) isM r nm a = .ok r2) :
    r2.fields = r.fields ∨ ∃ v, r2.fields = setAssoc r.fields (nlaToName nm) v := by
  by_cases hn : nlaToName nm = "multipath"
  · cases ha : a with
    | mp ms =>
        rw [ha] at h
        rw [attrStepG_mp_wrap isM r nm ms hn] at h
        cases hs : segsFold isM r.multipath ms with
        | error e => rw [hs] at h; simp at h
        | ok mp2 =>
            rw [hs] at h
            simp only [except_map_ok, Except.ok.injEq] at h
            left
            rw [← h]
            simp
    | v x =>
        rw [ha] at h
        unfold attrStepG at h
        rw [if_pos hn] at h
        simp at h
    | labels ls =>
        rw [ha] at h
        unfold attrStepG at h
        rw [if_pos hn] at h
        simp at h
    | enc ls =>
        rw [ha] at h
        unfold attrStepG at h
        rw [if_pos hn] at h
        simp at h
    | nested kv =>
        rw [ha] at h
        unfold attrStepG at h
        rw [if_pos hn] at h
        simp at h
  · rw [attrStepG_nonmp _ isM r nm a hn] at h
    exact attrStepNonMP_fields h

theorem procAttrsG_lookup (isM : Bool) (k : String) (as : List (String × MAttr)) :
    ∀ r r3 : RDct,
    procAttrsG (fun rec => loadNetlink isM freshRoute rec) isM r as = .ok r3 →
    (∀ na ∈ as, nlaToName na.1 ≠ k) →
    r3.fields.lookup k = r.fields.lookup k := by
  induction as with
  | nil =>
      intro r r3 h _
      unfold procAttrsG at h
      simp only [List.foldlM_nil] at h
      cases h
      rfl
  | cons na rest ih =>
      intro r r3 h hk
      unfold procAttrsG at h
      rw [List.foldlM_cons] at h
      cases hstep : attrStepG (fun rec => loadNetlink isM freshRoute rec) isM r na.1 na.2 with
      | error e => rw [hstep] at h; simp at h
      | ok r2 =>
          rw [hstep] at h
          simp only [except_bind_ok] at h
          have h1 := ih r2 r3 (by unfold procAttrsG; exact h)
            (fun x hx => hk x (List.mem_cons_of_mem _ hx))
          rw [h1]
          rcases attrStepG_fields hstep with h2 | ⟨v, h2⟩
          · rw [h2]
          · rw [h2, lookup_setAssoc_ne _ _ _ _ (fun he => hk na (by simp) he.symm)]

theorem procAttrsG_nd (isM : Bool) (as : List (String × MAttr)) :
    ∀ r r3 : RDct,
    procAttrsG (fun rec => loadNetlink isM freshRoute rec) isM r as = .ok r3 →
    fieldsND r → fieldsND r3 := by
  induction as with
  | nil =>
      intro r r3 h hnd
      unfold procAttrsG at h
      simp only [List.foldlM_nil] at h
      cases h
      exact hnd
  | cons na rest ih =>
      intro r r3 h hnd
      unfold procAttrsG at h
      rw [List.foldlM_cons] at h
      cases hstep : attrStepG (fun rec => loadNetlink isM freshRoute rec) isM r na.1 na.2 with
      | error e => rw [hstep] at h; simp at h
      | ok r2 =>
          rw [hstep] at h
          simp only [except_bind_ok] at h
          refine ih r2 r3 (by unfold procAttrsG; exact h) ?_
          rcases attrStepG_fields hstep with h2 | ⟨v, h2⟩
          · unfold fieldsND
            rw [h2]
            exact hnd
          · unfold fieldsND
            rw [h2]
            exact nodup_setAssoc hnd

theorem headerFold_fields (isM : Bool) (k : String) (flds : List (String × PVal)) :
    ∀ r r1 : RDct,
    flds.foldlM (fun acc kv => setHeaderField isM acc kv.1 kv.2) r = .ok r1 →
    (∀ kv ∈ flds, kv.1 ≠ k) →
    r1.fields.lookup k = r.fields.lookup k := by
  induction flds with
  | nil =>
      intro r r1 h _
      simp only [List.foldlM_nil] at h
      cases h
      rfl
  | cons kv t ih =>
      intro r r1 h hk
      rw [List.foldlM_cons] at h
      cases hstep : setHeaderField isM r kv.1 kv.2 with
      | error e => rw [hstep] at h; simp at h
      | ok r0 =>
          rw [hstep] at h
          simp only [except_bind_ok] at h
          have h1 := ih r0 r1 h (fun x hx => hk x (List.mem_cons_of_mem _ hx))
          rw [h1]
          unfold setHeaderField at hstep
          by_cases hc : kv.1 = "encap" ∨ kv.1 = "metrics" ∨ kv.1 = "multipath" ∨
              (isM ∧ kv.1 = "via")
          · rw [if_pos hc] at hstep; simp at hstep
          · rw [if_neg hc] at hstep
            simp only [Except.ok.injEq] at hstep
            rw [← hstep]
            simp only [fields_setF]
            exact lookup_setAssoc_ne _ _ _ _ (fun he => hk kv (by simp) he.symm)

theorem headerFold_nd (isM : Bool) (flds : List (String × PVal)) :
    ∀ r r1 : RDct,
    flds.foldlM (fun acc kv => setHeaderField isM acc kv.1 kv.2) r = .ok r1 →
    fieldsND r → fieldsND r1 := by
  induction flds with
  | nil =>
      intro r r1 h hnd
      simp only [List.foldlM_nil] at h
      cases h
      exact hnd
  | cons kv t ih =>
      intro r r1 h hnd
      rw [List.foldlM_cons] at h
      cases hstep : setHeaderField isM r kv.1 kv.2 with
      | error e => rw [hstep] at h; simp at h
      | ok r0 =>
          rw [hstep] at h
          simp only [except_bind_ok] at h
          refine ih r0 r1 h ?_
          unfold setHeaderField at hstep
          by_cases hc : kv.1 = "encap" ∨ kv.1 = "metrics" ∨ kv.1 = "multipath" ∨
              (isM ∧ kv.1 = "via")
          · rw [if_pos hc] at hstep; simp at hstep
          · rw [if_neg hc] at hstep
            simp only [Except.ok.injEq] at hstep
            rw [← hstep]
            unfold fieldsND
            simp only [fields_setF]
            exact nodup_setAssoc hnd

theorem headerFold_mp (isM : Bool) (flds : List (String × PVal)) :
    ∀ r r1 : RDct,
    flds.foldlM (fun acc kv => setHeaderField isM acc kv.1 kv.2) r = .ok r1 →
    r1.multipath = r.multipath := by
  induction flds with
  | nil =>
      intro r r1 h
      simp only [List.foldlM_nil] at h
      cases h
      rfl
  | cons kv t ih =>
      intro r r1 h
      rw [List.foldlM_cons] at h
      cases hstep : setHeaderField isM r kv.1 kv.2 with
      | error e => rw [hstep] at h; simp at h
      | ok r0 =>
          rw [hstep] at h
          simp only [except_bind_ok] at h
          rw [ih r0 r1 h]
          unfold setHeaderField at hstep
          by_cases hc : kv.1 = "encap" ∨ kv.1 = "metrics" ∨ kv.1 = "multipath" ∨
              (isM ∧ kv.1 = "via")
          · rw [if_pos hc] at hstep; simp at hstep
          · rw [if_neg hc] at hstep
            simp only [Except.ok.injEq] at hstep
            rw [← hstep]
            simp

theorem dstStep_fields {flds : List (String × PVal)} {attrs : List (String × MAttr)}
    {r3 r4 : RDct} (h : dstStep flds attrs r3 = .ok r4) :
    ∃ v, r4.fields = setAssoc r3.fields ("dst") v := by
  unfold dstStep at h
  by_cases hf : flds.lookup ("family") = some (PVal.i afMpls)
  · rw [if_pos hf] at h
    match hd : List.lookup ("RTA_DST") attrs with
    | some (.labels (l :: t)) =>
        rw [hd] at h
        simp only [except_pure, Except.ok.injEq] at h
        exact ⟨some (PVal.i l), by rw [← h]; simp⟩
    | some (.labels []) =>
        rw [hd] at h
        simp only [except_pure, Except.ok.injEq] at h
        exact ⟨some (PVal.il []), by rw [← h]; simp⟩
    | some (.v x) => rw [hd] at h; simp at h
    | some (.enc ls) => rw [hd] at h; simp at h
    | some (.nested kv) => rw [hd] at h; simp at h
    | some (.mp ms) => rw [hd] at h; simp at h
    | none =>
        rw [hd] at h
        simp only [except_pure, Except.ok.injEq] at h
        exact ⟨none, by rw [← h]; simp⟩
  · rw [if_neg hf] at h
    by_cases ht : maTruthy (List.lookup ("RTA_DST") attrs)
    · rw [if_pos ht] at h
      match hd : List.lookup ("RTA_DST") attrs with
      | some a =>
          rw [hd] at h
          match hl : flds.lookup ("dst_len") with
          | some l =>
              rw [hl] at h
              simp only [except_pure, Except.ok.injEq] at h
              exact ⟨some (PVal.s (maValStr a ++ "/" ++ valPyStr l)), by rw [← h]; simp⟩
          | none => rw [hl] at h; simp at h
      | none => rw [hd] at h; simp at h
    · rw [if_neg ht] at h
      simp only [except_pure, Except.ok.injEq] at h
      exact ⟨some (PVal.s ("default")), by rw [← h]; simp⟩

theorem dstStep_mp {flds : List (String × PVal)} {attrs : List (String × MAttr)}
    {r3 r4 : RDct} (h : dstStep flds attrs r3 = .ok r4) :
    r4.multipath = r3.multipath := by
  unfold dstStep at h
  by_cases hf : flds.lookup ("family") = some (PVal.i afMpls)
  · rw [if_pos hf] at h
    match hd : List.lookup ("RTA_DST") attrs with
    | some (.labels (l :: t)) =>
        rw [hd] at h
        simp only [except_pure, Except.ok.injEq] at h
        rw [← h]; simp
    | some (.labels []) =>
        rw [hd] at h
        simp only [except_pure, Except.ok.injEq] at h
        rw [← h]; simp
    | some (.v x) => rw [hd] at h; simp at h
    | some (.enc ls) => rw [hd] at h; simp at h
    | some (.nested kv) => rw [hd] at h; simp at h
    | some (.mp ms) => rw [hd] at h; simp at h
    | none =>
        rw [hd] at h
        simp only [except_pure, Except.ok.injEq] at h
        rw [← h]; simp
  · rw [if_neg hf] at h
    by_cases ht : maTruthy (List.lookup ("RTA_DST") attrs)
    · rw [if_pos ht] at h
      match hd : List.lookup ("RTA_DST") attrs with
      | some a =>
          rw [hd] at h
          match hl : flds.lookup ("dst_len") with
          | some l =>
              rw [hl] at h
              simp only [except_pure, Except.ok.injEq] at h
              rw [← h]; simp
          | none => rw [hl] at h; simp at h
      | none => rw [hd] at h; simp at h
    · rw [if_neg ht] at h
      simp only [except_pure, Except.ok.injEq] at h
      rw [← h]; simp

theorem encapFix_fields (isM : Bool) (attrs : List (String × MAttr)) (r4 : RDct) :
    (encapFix isM attrs r4).fields = r4.fields ∨
      ∃ v, (encapFix isM attrs r4).fields = setAssoc r4.fields ("encap_type") v := by
  unfold encapFix
  by_cases h1 : (List.lookup ("RTA_ENCAP") attrs).isSome
  · rw [if_pos h1]
    match r4.gf ("encap_type") with
    | some et => right; exact ⟨none, by simp⟩
    | none => left; rfl
  · rw [if_neg h1]
    by_cases h2 : (¬ isM) ∨ r4.encap.isSome
    · rw [if_pos h2]
      right; exact ⟨none, by simp⟩
    · rw [if_neg h2]
      left; rfl

theorem encapFix_mp (isM : Bool) (attrs : List (String × MAttr)) (r4 : RDct) :
    (encapFix isM attrs r4).multipath = r4.multipath := by
  unfold encapFix
  by_cases h1 : (List.lookup ("RTA_ENCAP") attrs).isSome
  · rw [if_pos h1]
    match r4.gf ("encap_type") with
    | some et => simp
    | none => rfl
  · rw [if_neg h1]
    by_cases h2 : (¬ isM) ∨ r4.encap.isSome
    · rw [if_pos h2]; simp
    · rw [if_neg h2]

theorem metricsFix_fields (isM : Bool) (attrs : List (String × MAttr)) (r5 : RDct) :
    (metricsFix isM attrs r5).fields = r5.fields := by
  unfold metricsFix
  by_cases h : (List.lookup ("RTA_METRICS") attrs).isNone ∧ ((¬ isM) ∨ r5.metrics.isSome)
  · rw [if_pos h]; simp
  · rw [if_neg h]

theorem metricsFix_mp (isM : Bool) (attrs : List (String × MAttr)) (r5 : RDct) :
    (metricsFix isM attrs r5).multipath = r5.multipath := by
  unfold metricsFix
  by_cases h : (List.lookup ("RTA_METRICS") attrs).isNone ∧ ((¬ isM) ∨ r5.metrics.isSome)
  · rw [if_pos h]; simp
  · rw [if_neg h]

theorem viaFix_fields (isM : Bool) (attrs : List (String × MAttr)) (r6 : RDct) :
    (viaFix isM attrs r6).fields = r6.fields := by
  unfold viaFix
  by_cases h : (List.lookup ("RTA_VIA") attrs).isNone ∧ (isM ∨ r6.via.isSome)
  · rw [if_pos h]; simp
  · rw [if_neg h]

theorem viaFix_mp (isM : Bool) (attrs : List (String × MAttr)) (r6 : RDct) :
    (viaFix isM attrs r6).multipath = r6.multipath := by
  unfold viaFix
  by_cases h : (List.lookup ("RTA_VIA") attrs).isNone ∧ (isM ∨ r6.via.isSome)
  · rw [if_pos h]; simp
  · rw [if_neg h]

theorem cleanupStep_mp (r7 : RDct) : (cleanupStep r7).multipath = r7.multipath := by
  unfold cleanupStep
  simp

theorem cleanupStep_lookup (r7 : RDct) (k : String)
    (hk : k ≠ "attrs" ∧ k ≠ "header" ∧ k ≠ "event" ∧ k ≠ "cacheinfo") :
    (cleanupStep r7).fields.lookup k = r7.fields.lookup k := by
  unfold cleanupStep
  simp only [fields_delF]
  rw [lookup_delAssoc_ne _ _ _ hk.2.2.2, lookup_delAssoc_ne _ _ _ hk.2.2.1,
      lookup_delAssoc_ne _ _ _ hk.2.1, lookup_delAssoc_ne _ _ _ hk.1]

theorem cleanupStep_nd {r7 : RDct} (h : fieldsND r7) : fieldsND (cleanupStep r7) := by
  unfold cleanupStep fieldsND
  simp only [fields_delF]
  exact nodup_delAssoc (nodup_delAssoc (nodup_delAssoc (nodup_delAssoc h)))

theorem loadPre_ok {isM : Bool} {r : RDct} {flds : List (String × PVal)} {r2a : RDct}
    (h : loadPre isM r flds = .ok r2a)
    (hnd1 : (lsKeys r.multipath).Nodup)
    (hmk : ∀ e ∈ r.multipath, makeNh e.2 = .ok (.key e.1)) :
    r2a.multipath = [] ∧
    ((∀ kv ∈ flds, kv.1 ≠ "ipdb_scope") →
      r2a.fields.lookup ("ipdb_scope") = some (some (PVal.s ("system")))) ∧
    (fieldsND r → fieldsND r2a) := by
  unfold loadPre at h
  dsimp only at h
  cases hfold : flds.foldlM (fun acc kv => setHeaderField isM acc kv.1 kv.2)
      (r.setF ("ipdb_scope") (some (PVal.s ("system")))) with
  | error e => rw [hfold] at h; simp at h
  | ok r1 =>
      rw [hfold] at h
      simp only [except_bind_ok] at h
      have hmp1 : r1.multipath = r.multipath := by
        rw [headerFold_mp isM flds _ r1 hfold]
        simp
      have hclear : clearMP r1 = .ok (r1.setMP []) := by
        refine clearMP_wf ?_ ?_
        · rw [hmp1]; exact hnd1
        · rw [hmp1]; exact hmk
      rw [hclear] at h
      simp only [Except.ok.injEq] at h
      subst h
      refine ⟨by simp, ?_, ?_⟩
      · intro hf
        simp only [fields_setMP]
        rw [headerFold_fields isM ("ipdb_scope") flds _ r1 hfold hf]
        simp only [fields_setF]
        exact lookup_setAssoc_self _ _ _
      · intro hnd
        unfold fieldsND
        simp only [fields_setMP]
        refine headerFold_nd isM flds _ r1 hfold ?_
        unfold fieldsND
        simp only [fields_setF]
        exact nodup_setAssoc hnd

theorem loadPost_ok {isM : Bool} {flds : List (String × PVal)}
    {attrs : List (String × MAttr)} {r3 rf : RDct}
    (h : loadPost isM flds attrs r3 = .ok rf) :
    rf.multipath = r3.multipath ∧
    (∀ k : String, k ≠ "dst" → k ≠ "encap_type" → k ≠ "attrs" → k ≠ "header" →
      k ≠ "event" → k ≠ "cacheinfo" → rf.fields.lookup k = r3.fields.lookup k) ∧
    (fieldsND r3 → fieldsND rf) := by
  unfold loadPost at h
  cases hdst : dstStep flds attrs r3 with
  | error e => rw [hdst] at h; simp at h
  | ok r4 =>
      rw [hdst] at h
      simp only [except_map_ok, Except.ok.injEq] at h
      subst h
      obtain ⟨v, hv⟩ := dstStep_fields hdst
      refine ⟨?_, ?_, ?_⟩
      · rw [cleanupStep_mp, viaFix_mp, metricsFix_mp, encapFix_mp, dstStep_mp hdst]
      · intro k h1 h2 h3 h4 h5 h6
        rw [cleanupStep_lookup _ k ⟨h3, h4, h5, h6⟩]
        simp only [viaFix_fields, metricsFix_fields]
        have hef := encapFix_fields isM attrs r4
        rcases hef with he | ⟨v2, he⟩
        · rw [he, hv, lookup_setAssoc_ne _ _ _ _ h1]
        · rw [he, lookup_setAssoc_ne _ _ _ _ h2, hv, lookup_setAssoc_ne _ _ _ _ h1]
      · intro hnd
        refine cleanupStep_nd ?_
        unfold fieldsND
        simp only [viaFix_fields, metricsFix_fields]
        have hef := encapFix_fields isM attrs r4
        have hnd4 : fieldsND r4 := by
          unfold fieldsND
          rw [hv]
          exact nodup_setAssoc hnd
        rcases hef with he | ⟨v2, he⟩
        · rw [he]; exact hnd4
        · rw [he]; exact nodup_setAssoc hnd4

theorem loadNetlink_nd {isM : Bool} {r : RDct} {m : Msg} {r2 : RDct}
    (h : loadNetlink isM r m = .ok r2) (hnd : fieldsND r)
    (hnd1 : (lsKeys r.multipath).Nodup)
    (hmk : ∀ e ∈ r.multipath, makeNh e.2 = .ok (.key e.1)) :
    fieldsND r2 := by
  obtain ⟨flds, attrs⟩ := m
  rw [loadNetlink_unfold] at h
  by_cases hsc : r.scopeOf = some (PVal.s ("locked"))
  · rw [if_pos hsc] at h
    cases h
    exact hnd
  · rw [if_neg hsc] at h
    cases hpre : loadPre isM r flds with
    | error e => rw [hpre] at h; simp at h
    | ok r2a =>
        rw [hpre] at h
        simp only [except_bind_ok] at h
        cases hproc : procAttrsG (fun rec => loadNetlink isM freshRoute rec) isM r2a attrs with
        | error e => rw [hproc] at h; simp at h
        | ok r3 =>
            rw [hproc] at h
            simp only [except_bind_ok] at h
            obtain ⟨_, _, hndp⟩ := loadPre_ok hpre hnd1 hmk
            have hnd3 := procAttrsG_nd isM attrs r2a r3 hproc (hndp hnd)
            exact (loadPost_ok h).2.2 hnd3

theorem stripSeg_facts {d : RDct} (hnd : fieldsND d) :
    (stripSeg d).hasF ("dst") = false ∧ (stripSeg d).hasF ("ipdb_scope") = false ∧
    (stripSeg d).hasF ("ipdb_priority") = false ∧
    (stripSeg d).multipath = [] ∧ (stripSeg d).metrics = none := by
  unfold stripSeg RDct.hasF
  refine ⟨?_, ?_, ?_, by simp, by cases d; rfl⟩
  · simp only [fields_setMetrics, fields_setMP, fields_delF]
    rw [lookup_delAssoc_ne _ _ _ (by decide), lookup_delAssoc_ne _ _ _ (by decide),
        lookup_delAssoc_self hnd]
    rfl
  · simp only [fields_setMetrics, fields_setMP, fields_delF]
    rw [lookup_delAssoc_ne _ _ _ (by decide), lookup_delAssoc_self (nodup_delAssoc hnd)]
    rfl
  · simp only [fields_setMetrics, fields_setMP, fields_delF]
    rw [lookup_delAssoc_self (nodup_delAssoc (nodup_delAssoc hnd))]
    rfl

/-- C5: for a route entity not in the locked scope, a successful
load_netlink merge sets ipdb_scope to system and fully replaces the
multipath set: the resulting set is computed from the message's
attribute list alone starting from the empty set (every pre-existing
segment having been removed first), and every resulting segment is a
route of the same class stripped of its dst, ipdb_scope, ipdb_priority,
multipath and metrics fields.  The hypotheses on r's multipath raw
mapping are the reachable-state invariants of the nexthop set, the two
name hypotheses say the message does not itself carry a field or
attribute named ipdb_scope (no rtmsg does). -/
theorem claim_C5 (isM : Bool) (r : RDct) (m : Msg) (r2 : RDct)
    (hsc : ¬ r.scopeOf = some (PVal.s ("locked")))
    (hnd1 : (lsKeys r.multipath).Nodup)
    (hmk : ∀ e ∈ r.multipath, makeNh e.2 = .ok (.key e.1))
    (hgood : loadNetlink isM r m = .ok r2)
    (hf : ∀ kv ∈ m.fields, kv.1 ≠ "ipdb_scope")
    (hattr : ∀ na ∈ m.attrs, nlaToName na.1 ≠ "ipdb_scope") :
    r2.scopeOf = some (PVal.s ("system")) ∧
    attrsMPFold isM [] m.attrs = .ok r2.multipath ∧
    (∀ e ∈ r2.multipath, ∃ d0, e.2 = NhPrime.rt isM (stripSeg d0) ∧
      (stripSeg d0).hasF ("dst") = false ∧ (stripSeg d0).hasF ("ipdb_scope") = false ∧
      (stripSeg d0).hasF ("ipdb_priority") = false ∧
      (stripSeg d0).multipath = [] ∧ (stripSeg d0).metrics = none) := by
  obtain ⟨flds, attrs⟩ := m
  rw [loadNetlink_unfold, if_neg hsc] at hgood
  cases hpre : loadPre isM r flds with
  | error e => rw [hpre] at hgood; simp at hgood
  | ok r2a =>
      rw [hpre] at hgood
      simp only [except_bind_ok] at hgood
      cases hproc : procAttrsG (fun rec => loadNetlink isM freshRoute rec) isM r2a attrs with
      | error e => rw [hproc] at hgood; simp at hgood
      | ok r3 =>
          rw [hproc] at hgood
          simp only [except_bind_ok] at hgood
          obtain ⟨hmp0, hsc0, h_⟩ := loadPre_ok hpre hnd1 hmk
          obtain ⟨hmpf, hlkf, h2_⟩ := loadPost_ok hgood
          have hfold : attrsMPFold isM [] attrs = .ok r3.multipath := by
            have hh := procAttrs_mp isM attrs r2a
            rw [hproc] at hh
            simp only [except_map_ok] at hh
            rw [hmp0] at hh
            exact hh.symm
          refine ⟨?_, ?_, ?_⟩
          · unfold RDct.scopeOf RDct.gf
            rw [hlkf ("ipdb_scope") (by decide) (by decide) (by decide) (by decide)
                  (by decide) (by decide)]
            rw [procAttrsG_lookup isM ("ipdb_scope") attrs r2a r3 hproc hattr]
            rw [hsc0 hf]
            rfl
          · rw [hmpf]
            exact hfold
          · intro e he
            rw [hmpf] at he
            rcases attrsMPFold_entries isM attrs [] r3.multipath hfold e he with
              h1 | ⟨d0, rec, hld, he2⟩
            · simp at h1
            · have hndd : fieldsND d0 :=
                loadNetlink_nd hld (by decide) (by decide) (by decide)
              obtain ⟨s1, s2, s3, s4, s5⟩ := stripSeg_facts hndd
              exact ⟨d0, he2, s1, s2, s3, s4, s5⟩

def c5dA : RDct := .mk [("gateway", some (PVal.s ("10.0.0.1")))] none none none []

def c5dB : RDct := .mk [("gateway", some (PVal.s ("10.0.0.2")))] none none none []

def c5kA : NHKey :=
  .ip { src := none, dst := none, gateway := some (PVal.s ("10.0.0.1")),
        encap := none, iif := none, oif := none }

def c5kB : NHKey :=
  .ip { src := none, dst := none, gateway := some (PVal.s ("10.0.0.2")),
        encap := none, iif := none, oif := none }

/-- A system-scope route holding two multipath segments with gateways
10.0.0.1 and 10.0.0.2. -/
def c5r : RDct :=
  .mk [("ipdb_priority", some (PVal.i 0)), ("family", some (PVal.i 2)),
       ("ipdb_scope", some (PVal.s ("system")))]
    none none none [(c5kA, .dct c5dA), (c5kB, .dct c5dB)]

/-- A nexthop record carrying only RTA_GATEWAY 10.0.0.3. -/
def c5seg : Msg := .mk [] [("RTA_GATEWAY", .v (PVal.s ("10.0.0.3")))]

/-- A message for 10.0.0.0/24 with a single multipath segment. -/
def c5m : Msg :=
  .mk [("family", PVal.i 2), ("dst_len", PVal.i 24), ("event", PVal.s ("RTM_NEWROUTE"))]
    [("RTA_DST", .v (PVal.s ("10.0.0.0"))), ("RTA_MULTIPATH", .mp [c5seg])]

def c5segS : RDct :=
  .mk [("gateway", some (PVal.s ("10.0.0.3"))), ("encap_type", none)]
    (some (none, none)) none none []

def c5k : NHKey :=
  .ip { src := none, dst := none, gateway := some (PVal.s ("10.0.0.3")),
        encap := none, iif := none, oif := none }

/-- The merge result: scope system, dst 10.0.0.0/24, and exactly one
multipath entry, the stripped segment for gateway 10.0.0.3. -/
def c5r2 : RDct :=
  .mk [("ipdb_priority", some (PVal.i 0)), ("family", some (PVal.i 2)),
       ("ipdb_scope", some (PVal.s ("system"))), ("dst_len", some (PVal.i 24)),
       ("dst", some (PVal.s ("10.0.0.0/24"))), ("encap_type", none)]
    (some (none, none)) (some []) none [(c5k, .rt false c5segS)]

theorem claim_C5_witness :
    (¬ c5r.scopeOf = some (PVal.s ("locked"))) ∧ (lsKeys c5r.multipath).Nodup ∧
    (c5r2.scopeOf = some (PVal.s ("system")) ∧
     attrsMPFold false [] c5m.attrs = .ok c5r2.multipath ∧
     (∀ e ∈ c5r2.multipath, ∃ d0, e.2 = NhPrime.rt false (stripSeg d0) ∧
       (stripSeg d0).hasF ("dst") = false ∧ (stripSeg d0).hasF ("ipdb_scope") = false ∧
       (stripSeg d0).hasF ("ipdb_priority") = false ∧
       (stripSeg d0).multipath = [] ∧ (stripSeg d0).metrics = none)) :=
  ⟨by decide, by decide,
   claim_C5 false c5r c5m c5r2 (by decide) (by decide) (by decide) rfl
     (by decide) (by decide)⟩

/- ### The per-table index: records, lookup targets, filter and describe
   (route.py 596-773) -/

/-- Route.make_key's addr/len join of the message branch for src and dst
(route.py 404-410): a present attribute is joined with the corresponding
prefix-length header field through percent-s formatting (msg['..._len']
raises KeyError when the field is missing); an absent dst defaults to
the literal 'default', an absent src stays None. -/
def mkAddrField (m : Msg) (fld : String) : Except PyErr (Option PVal) :=
  match m.getAttr (nameToNla fld) with
  | some a =>
      match m.mget (fld ++ "_len") with
      | some l => .ok (some (PVal.s (maValStr a ++ "/" ++ valPyStr l)))
      | none => .error .keyErr
  | none => if fld = "dst" then .ok (some (PVal.s ("default"))) else .ok none

/-- A decoded attribute value read as a scalar; the nested decoded
shapes never occur under the scalar key attributes of a real rtmsg and
fall outside the scalar value type. -/
def maScalar : MAttr → Except PyErr PVal
  | .v x => .ok x
  | .labels ls => .ok (PVal.il ls)
  | _ => .error .typeErr

/-- A plain key field of Route.make_key's message branch (route.py
419-420): the attribute value, falling back to msg.get(field, None). -/
def mkPlainField (m : Msg) (fld : String) : Except PyErr (Option PVal) :=
  match m.getAttr (nameToNla fld) with
  | some a => (maScalar a).map some
  | none => .ok (m.mget fld)

/-- The encap key field of Route.make_key's message branch (route.py
411-418): None unless RTA_ENCAP_TYPE is 1, else the joined label stack
of the RTA_ENCAP attribute's MPLS_IPTUNNEL_DST (an absent RTA_ENCAP is
None.get_attr, an AttributeError; one without the tunnel labels
iterates None, a TypeError). -/
def mkEncField (m : Msg) : Except PyErr (Option PVal) :=
  match m.getAttr ("RTA_ENCAP_TYPE") with
  | some (.v (PVal.i n)) =>
      if n = 1 then
        match m.getAttr ("RTA_ENCAP") with
        | some (.enc ls) => .ok (some (PVal.s (joinLabels ls)))
        | some _ => .error .typeErr
        | none => .error .attrErr
      else .ok none
  | _ => .ok none

/-- Route.make_key on a decoded message (route.py 402-421): the six key
fields in order, each read from its RTA_ attribute. -/
def makeKeyMsg (m : Msg) : Except PyErr RouteKey := do
  let src ← mkAddrField m ("src")
  let dst ← mkAddrField m ("dst")
  let gw ← mkPlainField m ("gateway")
  let enc ← mkEncField m
  let iif ← mkPlainField m ("iif")
  let oif ← mkPlainField m ("oif")
  pure { src := src, dst := dst, gateway := gw, encap := enc,
         iif := iif, oif := oif }

/-- MPLSRoute.make_key on a decoded message (route.py 522-537): a
decoded RTA_DST label list yields its first label (IndexError when
empty); a scalar RTA_DST falls through both shape tests and is returned
as-is (an integer is the same dict key as a label); an absent RTA_DST
builds the nexthop key, but msg['newdst'] on a message without that
header field raises KeyError, and a scalar header field holds no
via.addr, so via is None. -/
def mplsMakeKeyMsg (m : Msg) : Except PyErr MPLSKey :=
  match m.getAttr ("RTA_DST") with
  | some (.labels (l :: _)) => .ok (.lbl l)
  | some (.labels []) => .error .indexErr
  | some (.v (PVal.i n)) => .ok (.lbl n)
  | some (.v v) => .ok (.raw v)
  | some _ => .error .typeErr
  | none =>
      match m.mget ("newdst") with
      | some (PVal.il ls) =>
          .ok (.nh { newdst := ls, via := none, oif := m.mget ("oif") })
      | some _ => .error .typeErr
      | none => .error .keyErr

/-- One record of a routing-table index: the mapping holding the route
entity under 'route' and the key it is indexed under ('key'; None for a
record not, or not yet, indexed). -/
structure TRec where
  route : RDct
  rkey : Option RouteKey

/-- A lookup target as accepted by RoutingTable.describe and filter: a
positional integer, a structural key tuple, a decoded message, a dst
string shorthand, a field-equality mapping, or a callable predicate
over index records. -/
inductive Tgt where
  | pos (i : Int)
  | tup (vs : List (Option PVal))
  | msg (m : Msg)
  | str (s : String)
  | dct (fs : List (String × PVal))
  | fn (p : TRec → Bool)

/-- The inner loop of RoutingTable.filter (route.py 638-644): a record
matches when every target pair names a key present on the route with an
equal value; the nested encap/metrics/multipath objects never equal a
scalar target value, so only the generic fields can match. -/
def fmatch (fs : List (String × PVal)) (r : RDct) : Bool :=
  fs.all (fun e => match r.fields.lookup e.1 with
    | some w => w == some e.2
    | none => false)

/-- The record scan of RoutingTable.filter over the index values in
insertion order, stopping at the first match when oneshot. -/
def fmatches (idx : List (RouteKey × TRec)) (fs : List (String × PVal))
    (oneshot : Bool) : List TRec :=
  if oneshot then
    match (idx.map Prod.snd).find? (fun rec => fmatch fs rec.route) with
    | some rec => [rec]
    | none => []
  else (idx.map Prod.snd).filter (fun rec => fmatch fs rec.route)

/-- RoutingTable.filter (route.py 626-648): a callable selects over the
index records (that path returns the whole selection, ignoring
oneshot); a string is shorthand for a dst mapping; a mapping selects
the records matching every pair; any other target raises TypeError. -/
def tfilter (idx : List (RouteKey × TRec)) (tgt : Tgt) (oneshot : Bool) :
    Except PyErr (List TRec) :=
  match tgt with
  | .fn p => .ok ((idx.map Prod.snd).filter p)
  | .str s => .ok (fmatches idx [("dst", PVal.s s)] oneshot)
  | .dct fs => .ok (fmatches idx fs oneshot)
  | _ => .error .typeErr

/-- Python sequence indexing with negative offsets, as used by
keys[target] in the positional branch of describe. -/
def pyIdx {α : Type} (l : List α) (i : Int) : Option α :=
  let j : Int := if i < 0 then i + l.length else i
  if j < 0 then none else l.get? j.toNat

/-- RouteKey(*target): the namedtuple constructor takes exactly the six
fields and raises TypeError on any other arity. -/
def mkRK6 : List (Option PVal) → Option RouteKey
  | [a, b, c, d, e, f] =>
      some { src := a, dst := b, gateway := c, encap := d, iif := e, oif := f }
  | _ => none

/-- target[:_required] + (None,) * 2: the partial key of the tuple
branch of describe (route.py 668-671). -/
def padTup (vs : List (Option PVal)) : List (Option PVal) :=
  vs.take 4 ++ [none, none]

/-- The tuple branch of RoutingTable.describe (route.py 658-671): build
the full key (TypeError on wrong arity), try the exact index lookup,
and on a KeyError retry under the partial key with the optional iif/oif
fields cleared; a second miss propagates the KeyError. -/
def tupDescribe (idx : List (RouteKey × TRec)) (vs : List (Option PVal)) :
    Except PyErr TRec :=
  match mkRK6 vs with
  | none => .error .typeErr
  | some k =>
    match idx.lookup k with
    | some rec => .ok rec
    | none =>
      match mkRK6 (padTup vs) with
      | none => .error .typeErr
      | some pk =>
        match idx.lookup pk with
        | some rec => .ok rec
        | none => .error .keyErr

/-- Dict assignment on a generic association list (insertion position
kept, unique keys). -/
def setAssocG {α : Type} : List (String × α) → String → α → List (String × α)
  | [], k, v => [(k, v)]
  | e :: t, k, v => if e.1 = k then (k, v) :: t else e :: setAssocG t k v

/-- The combined addr/len split of the forward branch of describe
(route.py 689-697): a string value holding a slash is split into the
address and the integer prefix length (int() of a non-numeric part is a
ValueError); .find on a non-string value is an AttributeError; an
absent key is the empty-string default and is left alone. -/
def splitMask (fs : List (String × PVal)) (fld lenf : String) :
    Except PyErr (List (String × PVal)) :=
  match fs.lookup fld with
  | some (PVal.s s) =>
      if s.data.contains '/' then
        match s.splitOn ("/") with
        | a :: b :: _ =>
            match b.toInt? with
            | some n => .ok (setAssocG (setAssocG fs fld (PVal.s a)) lenf (PVal.i n))
            | none => .error .valueErr
        | _ => .error .indexErr
      else .ok fs
  | some _ => .error .attrErr
  | none => .ok fs

/-- The forward branch of describe (route.py 688-706): split the masked
dst/src values, query the kernel (the response is the nlRes parameter),
raise KeyError on an empty response, else merge the first message into
a fresh route entity and return it un-indexed. -/
def forwardLookup (fs : List (String × PVal)) (nlRes : List Msg) :
    Except PyErr TRec := do
  let fs1 ← splitMask fs ("dst") ("dst_len")
  let _fs2 ← splitMask fs1 ("src") ("src_len")
  match nlRes with
  | [] => .error .keyErr
  | m :: _ => do
      let rt ← loadNetlink false freshRoute m
      pure { route := rt, rkey := none }

/-- RoutingTable.describe (route.py 650-706): resolve by position into
the key tuple (the lookup under a key drawn from the index always
hits), by structural key tuple with the partial-key fallback, by a
decoded message through Route.make_key, or by the filter returning its
first match; with no match, KeyError unless forward, and then the
kernel query path for mapping targets only (TypeError otherwise). -/
def rtDescribe (idx : List (RouteKey × TRec)) (tgt : Tgt) (fwd : Bool)
    (nlRes : List Msg) : Except PyErr TRec :=
  match tgt with
  | .pos i =>
      match pyIdx (idx.map Prod.fst) i with
      | some k =>
          match idx.lookup k with
          | some rec => .ok rec
          | none => .error .keyErr
      | none => .error .indexErr
  | .tup vs => tupDescribe idx vs
  | .msg m => do
      let k ← makeKeyMsg m
      match idx.lookup k with
      | some rec => .ok rec
      | none => .error .keyErr
  | t => do
      let ret ← tfilter idx t true
      match ret.head? with
      | some rec => .ok rec
      | none =>
          if fwd then
            match t with
            | .dct fs => forwardLookup fs nlRes
            | _ => .error .typeErr
          else .error .keyErr

/-- One record of the MPLS table index. -/
structure MRec where
  route : RDct
  rkey : Option MPLSKey

/-- MPLSTable.describe (route.py 764-773): an integer target is a
direct dict lookup by label key, a decoded message goes through
MPLSRoute.make_key; every other target shape raises KeyError before
the forward flag is ever consulted. -/
def mplsDescribe (idx : List (MPLSKey × MRec)) (tgt : Tgt) (_fwd : Bool) :
    Except PyErr MRec :=
  match tgt with
  | .pos i =>
      match idx.lookup (MPLSKey.lbl i) with
      | some rec => .ok rec
      | none => .error .keyErr
  | .msg m => do
      let k ← mplsMakeKeyMsg m
      match idx.lookup k with
      | some rec => .ok rec
      | none => .error .keyErr
  | _ => .error .keyErr

theorem mkRK6_padTup {vs : List (Option PVal)} {k : RouteKey}
    (hk : mkRK6 vs = some k) :
    mkRK6 (padTup vs) = some { k with iif := none, oif := none } := by
  rcases vs with _ | ⟨a, _ | ⟨b, _ | ⟨c, _ | ⟨d, _ | ⟨e, _ | ⟨f, _ | ⟨g, t⟩⟩⟩⟩⟩⟩⟩ <;>
    first
      | exact Option.noConfusion hk
      | (cases Option.some.inj hk; rfl)

theorem rtDescribe_tup (idx : List (RouteKey × TRec)) (vs : List (Option PVal))
    (fwd : Bool) (nlRes : List Msg) :
    rtDescribe idx (.tup vs) fwd nlRes = tupDescribe idx vs := rfl

theorem tupDescribe_eq (idx : List (RouteKey × TRec)) (vs : List (Option PVal))
    (k : RouteKey) (hk : mkRK6 vs = some k) :
    tupDescribe idx vs =
      (match idx.lookup k with
       | some rec => .ok rec
       | none =>
         match mkRK6 (padTup vs) with
         | none => .error .typeErr
         | some pk =>
           match idx.lookup pk with
           | some rec => .ok rec
           | none => .error .keyErr) := by
  unfold tupDescribe
  rw [hk]

/-- C6: on a tuple target, describe first tries the exact lookup under
the full six-field key and, on a miss, retries under the key with the
same required prefix and the optional iif/oif fields cleared to None;
hence when the record is indexed under the partial key (the route was
created with unset interface indices) and the full key is not itself
indexed, describe with the full key and describe with its
required-field-only prefix (the partial key tuple) return the same
record. -/
theorem claim_C6 (idx : List (RouteKey × TRec)) (vs : List (Option PVal))
    (k : RouteKey) (fwd : Bool) (nlRes : List Msg)
    (hk : mkRK6 vs = some k) :
    (rtDescribe idx (.tup vs) fwd nlRes =
      (match idx.lookup k with
       | some rec => .ok rec
       | none =>
         match idx.lookup { k with iif := none, oif := none } with
         | some rec => .ok rec
         | none => .error .keyErr)) ∧
    (∀ rec, idx.lookup { k with iif := none, oif := none } = some rec →
       (k = { k with iif := none, oif := none } ∨ idx.lookup k = none) →
       rtDescribe idx (.tup vs) fwd nlRes = .ok rec ∧
       rtDescribe idx (.tup (padTup vs)) fwd nlRes = .ok rec) := by
  have hpad := mkRK6_padTup hk
  constructor
  · rw [rtDescribe_tup, tupDescribe_eq idx vs k hk]
    cases h1 : idx.lookup k with
    | some rec => rfl
    | none =>
        simp only [hpad]
  · intro rec hrec hor
    constructor
    · rw [rtDescribe_tup, tupDescribe_eq idx vs k hk]
      rcases hor with hor | hor
      · rw [← hor] at hrec
        rw [hrec]
      · simp only [hor, hpad, hrec]
    · rw [rtDescribe_tup, tupDescribe_eq idx (padTup vs) _ hpad, hrec]

def c6route : RDct := .mk [("dst", some (PVal.s ("10.0.0.0/24")))] none none none []

def c6pk : RouteKey :=
  { src := none, dst := some (PVal.s ("10.0.0.0/24")),
    gateway := some (PVal.s ("10.0.0.1")), encap := none, iif := none, oif := none }

def c6rec : TRec := { route := c6route, rkey := some c6pk }

def c6idx : List (RouteKey × TRec) := [(c6pk, c6rec)]

def c6vs : List (Option PVal) :=
  [none, some (PVal.s ("10.0.0.0/24")), some (PVal.s ("10.0.0.1")), none,
   none, some (PVal.i 1)]

def c6k : RouteKey := { c6pk with oif := some (PVal.i 1) }

theorem claim_C6_witness :
    rtDescribe c6idx (.tup c6vs) false [] = .ok c6rec ∧
    rtDescribe c6idx (.tup (padTup c6vs)) false [] = .ok c6rec :=
  (claim_C6 c6idx c6vs c6k false [] rfl).2 c6rec rfl (Or.inr rfl)

/-- C10: MPLSTable.describe resolves only an integer target (a direct
label-key lookup) or a decoded message target (through
MPLSRoute.make_key); every target of any other shape - a structural key
tuple, a string, a field mapping or a callable filter - raises KeyError
for every table state and regardless of the forward flag, so the
multi-mode lookup and the kernel-fallback path of ordinary tables are
unavailable on the MPLS table. -/
theorem claim_C10 (idx : List (MPLSKey × MRec)) (tgt : Tgt) (fwd : Bool)
    (h : (∀ i, tgt ≠ .pos i) ∧ (∀ m, tgt ≠ .msg m)) :
    mplsDescribe idx tgt fwd = .error .keyErr := by
  cases tgt with
  | pos i => exact absurd rfl (h.1 i)
  | msg m => exact absurd rfl (h.2 m)
  | tup vs => rfl
  | str s => rfl
  | dct fs => rfl
  | fn p => rfl

def c10rt : RDct := .mk [("dst", some (PVal.i 100))] none none none []

def c10idx : List (MPLSKey × MRec) :=
  [(.lbl 100, { route := c10rt, rkey := some (.lbl 100) })]

theorem claim_C10_witness :
    mplsDescribe c10idx
      (.tup [some (PVal.i 100), none, none, none, none, none]) true =
      .error .keyErr :=
  claim_C10 c10idx (.tup [some (PVal.i 100), none, none, none, none, none]) true
    ⟨fun _ h => Tgt.noConfusion h, fun _ h => Tgt.noConfusion h⟩

/- ### The routing table set (route.py 776-858) -/

/-- Dict assignment on an association list over an arbitrary key type
(insertion position kept, unique keys). -/
def setKV {κ ρ : Type} [BEq κ] : List (κ × ρ) → κ → ρ → List (κ × ρ)
  | [], k, v => [(k, v)]
  | e :: t, k, v => if e.1 == k then (k, v) :: t else e :: setKV t k v

/-- Dict deletion on an association list over an arbitrary key type. -/
def delKV {κ ρ : Type} [BEq κ] : List (κ × ρ) → κ → List (κ × ρ)
  | [], _ => []
  | e :: t, k => if e.1 == k then t else e :: delKV t k

/-- The key produced by MPLSRoute.make_key on a route mapping, as a
dict key of the MPLS table: an integer scalar is the same dict key as a
label, any other scalar is a raw key, and the nexthop namedtuple is the
nexthop key (make_key never yields an ordinary RouteKey). -/
def nhValToMK : NhVal → Except PyErr MPLSKey
  | .scalar (PVal.i n) => .ok (.lbl n)
  | .scalar v => .ok (.raw v)
  | .key (.mp k) => .ok (.nh k)
  | .key (.ip _) => .error .typeErr

/-- A key of the tables mapping of the set: a raw Python value - a
numeric table id, the string mpls, or None (an absent RTA_TABLE). -/
abbrev TblId := Option PVal

/-- One table of the set: an ordinary routing table index or the MPLS
table index. -/
inductive Tbl where
  | ord (idx : List (RouteKey × TRec))
  | mpls (idx : List (MPLSKey × MRec))

/-- RoutingTableSet (route.py 776-781): the tables mapping and the
ignored table ids. -/
structure RTSet where
  tables : List (TblId × Tbl)
  ignore : List TblId

/-- The six key fields of a RouteKey as the tuple that describe's tuple
branch receives when a table method is called with a structural key. -/
def rkToList (k : RouteKey) : List (Option PVal) :=
  [k.src, k.dst, k.gateway, k.encap, k.iif, k.oif]

/-- MPLSTable.describe on a key value (the path the inherited
RoutingTable item methods take): an integer label key is a direct index
lookup; a nexthop tuple key or a raw string key reaches no branch of
describe and raises KeyError. -/
def mplsKeyDescribe (idx : List (MPLSKey × MRec)) (k : MPLSKey) :
    Except PyErr MRec :=
  match k with
  | .lbl n =>
      match idx.lookup (MPLSKey.lbl n) with
      | some rec => .ok rec
      | none => .error .keyErr
  | _ => .error .keyErr

/-- The index store of RoutingTable.__setitem__ (route.py 734-742):
the record, its route replaced, is stored under the key re-derived from
the route; when the record was indexed under a different key, the old
entry is dropped and the record's key is updated. -/
def ordStore (idx : List (RouteKey × TRec)) (oldk : Option RouteKey)
    (k2 : RouteKey) (rt : RDct) : List (RouteKey × TRec) :=
  let idx2 := setKV idx k2 { route := rt, rkey := some k2 }
  match oldk with
  | none => idx2
  | some ok2 => if ok2 = k2 then idx2 else delKV idx2 ok2

/-- The MPLS-table twin of ordStore. -/
def mplsStore (idx : List (MPLSKey × MRec)) (oldk : Option MPLSKey)
    (k2 : MPLSKey) (rt : RDct) : List (MPLSKey × MRec) :=
  let idx2 := setKV idx k2 { route := rt, rkey := some k2 }
  match oldk with
  | none => idx2
  | some ok2 => if ok2 = k2 then idx2 else delKV idx2 ok2

/-- RoutingTable.__setitem__ with a decoded message value (route.py
718-742 through load): locate the record under the key (a KeyError
begins a fresh un-indexed record; other errors propagate), merge the
message into the record's route, and store under the re-derived key. -/
def ordSetItem (idx : List (RouteKey × TRec)) (k : RouteKey) (m : Msg) :
    Except PyErr (List (RouteKey × TRec)) := do
  let record ← (match tupDescribe idx (rkToList k) with
    | .ok rec => .ok rec
    | .error .keyErr => .ok { route := freshRoute, rkey := none }
    | .error e => .error e)
  let rt2 ← loadNetlink false record.route m
  let k2 ← routeMakeKeyD rt2
  .ok (ordStore idx record.rkey k2 rt2)

/-- The MPLS-table twin of ordSetItem: the inherited __setitem__
dispatches to MPLSTable.describe, MPLSRoute.load_netlink and
MPLSRoute.make_key. -/
def mplsSetItem (idx : List (MPLSKey × MRec)) (k : MPLSKey) (m : Msg) :
    Except PyErr (List (MPLSKey × MRec)) := do
  let record ← (match mplsKeyDescribe idx k with
    | .ok rec => .ok rec
    | .error .keyErr => .ok { route := freshRoute, rkey := none }
    | .error e => .error e)
  let rt2 ← loadNetlink true record.route m
  let kv ← mplsMakeKeyD rt2
  let k2 ← nhValToMK kv
  .ok (mplsStore idx record.rkey k2 rt2)

/-- RoutingTable.load (route.py 713-716): derive the key from the
message, store the message under it, and return that key. -/
def ordLoad (idx : List (RouteKey × TRec)) (m : Msg) :
    Except PyErr (List (RouteKey × TRec) × RouteKey) := do
  let k ← makeKeyMsg m
  let idx2 ← ordSetItem idx k m
  .ok (idx2, k)

/-- The MPLS-table twin of ordLoad. -/
def mplsLoad (idx : List (MPLSKey × MRec)) (m : Msg) :
    Except PyErr (List (MPLSKey × MRec) × MPLSKey) := do
  let k ← mplsMakeKeyMsg m
  let idx2 ← mplsSetItem idx k m
  .ok (idx2, k)

/-- RoutingTable.__delitem__ (route.py 708-711) with a message target:
locate the record via describe, then delete the index entry under the
key rebuilt from the located route entity (a KeyError when that key is
not indexed). -/
def ordDel (idx : List (RouteKey × TRec)) (m : Msg) :
    Except PyErr (List (RouteKey × TRec)) := do
  let item ← rtDescribe idx (.msg m) false []
  let k ← routeMakeKeyD item.route
  if (idx.lookup k).isSome then .ok (delKV idx k) else .error .keyErr

/-- The MPLS-table twin of ordDel. -/
def mplsDel (idx : List (MPLSKey × MRec)) (m : Msg) :
    Except PyErr (List (MPLSKey × MRec)) := do
  let item ← mplsDescribe idx (.msg m) false
  let kv ← mplsMakeKeyD item.route
  let k ← nhValToMK kv
  if (idx.lookup k).isSome then .ok (delKV idx k) else .error .keyErr

/-- The body of the RTM_DELROUTE try block (route.py 838-845): locate
the record (a KeyError when the table or the entity is unknown), leave
locked and shadow records alone, else delete the entity from its table;
the scope write on the detached record does not touch the table state.
No table mutation precedes a possible exception, so an error leaves
the set exactly as it was. -/
def delAct (ts : RTSet) (tid : TblId) (m : Msg) : Except PyErr RTSet := do
  match ts.tables.lookup tid with
  | none => .error .keyErr
  | some (Tbl.ord idx) => do
      let rec0 ← rtDescribe idx (.msg m) false []
      if rec0.route.gf ("ipdb_scope") = some (PVal.s ("locked")) ∨
         rec0.route.gf ("ipdb_scope") = some (PVal.s ("shadow")) then
        .ok ts
      else do
        let idx2 ← ordDel idx m
        .ok { ts with tables := setKV ts.tables tid (Tbl.ord idx2) }
  | some (Tbl.mpls idx) => do
      let rec0 ← mplsDescribe idx (.msg m) false
      if rec0.route.gf ("ipdb_scope") = some (PVal.s ("locked")) ∨
         rec0.route.gf ("ipdb_scope") = some (PVal.s ("shadow")) then
        .ok ts
      else do
        let idx2 ← mplsDel idx m
        .ok { ts with tables := setKV ts.tables tid (Tbl.mpls idx2) }

/-- The RTM_DELROUTE branch of RoutingTableSet.load_netlink (route.py
836-849): the deletion runs inside a bare try/except that logs and
absorbs every exception, and the branch returns None either way. -/
def delBranch (ts : RTSet) (tid : TblId) (m : Msg) : RTSet :=
  match delAct ts tid m with
  | .ok ts2 => ts2
  | .error _ => ts

/-- The table id computation of RoutingTableSet.load_netlink (route.py
827-832): mpls for the MPLS family, else the table header field
(default 254), indirected through the RTA_TABLE attribute when 252 (an
absent RTA_TABLE makes the id the raw None key). -/
def tidOf (m : Msg) : Except PyErr TblId :=
  if m.mget ("family") = some (PVal.i afMpls) then .ok (some (PVal.s ("mpls")))
  else match m.mget ("table") with
    | some (PVal.i 252) =>
        (match m.getAttr ("RTA_TABLE") with
         | some (.v x) => .ok (some x)
         | some (.labels ls) => .ok (some (PVal.il ls))
         | some _ => .error .typeErr
         | none => .ok none)
    | some v => .ok (some v)
    | none => .ok (some (PVal.i 254))

/-- RoutingTableSet.load_netlink (route.py 819-858): a non-rtmsg
message returns None untouched; then the table id, the ignore-list
drop, the absorbed RTM_DELROUTE branch, and for every other event the
message is loaded into its table (created on demand) and the loaded
route is returned through the table lookup under the message key.  In
Python an exception escaping the load path leaves the partially updated
tables behind; the model reports only the error, and no claim observes
that state. -/
def rtsLoadNetlink (ts : RTSet) (isRt : Bool) (m : Msg) :
    Except PyErr (RTSet × Option RDct) := do
  if ¬ isRt then .ok (ts, none)
  else do
    let tid ← tidOf m
    if ts.ignore.contains tid then .ok (ts, none)
    else match m.mget ("event") with
      | none => .error .keyErr
      | some ev =>
        if ev = PVal.s ("RTM_DELROUTE") then
          .ok (delBranch ts tid m, none)
        else
          match (match ts.tables.lookup tid with
                 | some t => t
                 | none => if tid = some (PVal.s ("mpls")) then Tbl.mpls []
                           else Tbl.ord []) with
          | Tbl.ord idx => do
              let p ← ordLoad idx m
              let rec2 ← tupDescribe p.1 (rkToList p.2)
              .ok ({ ts with tables := setKV ts.tables tid (Tbl.ord p.1) },
                   some rec2.route)
          | Tbl.mpls idx => do
              let p ← mplsLoad idx m
              let rec2 ← mplsKeyDescribe p.1 p.2
              .ok ({ ts with tables := setKV ts.tables tid (Tbl.mpls p.1) },
                   some rec2.route)

/-- Route.make_encap (route.py 381-394): normalize an encap mapping to
its type (default mpls) and the slash-joined labels string; a labels
value that is neither a label list nor a string is a TypeError. -/
def makeEncap (enc : Option PVal × Option PVal) :
    Except PyErr (Option PVal × Option PVal) := do
  let labels ← (match enc.2 with
    | some (PVal.il ls) => .ok (PVal.s (joinLabels ls))
    | some (PVal.s s) => .ok (PVal.s s)
    | _ => .error .typeErr)
  .ok (some (enc.1.getD (PVal.s ("mpls"))), some labels)

/-- The route assembly of RoutingTableSet.add (route.py 801-815): the
spec's scalar fields land on a fresh route (route.update and the
per-key assignment loop write the same values), the scope is set to
create, the spec's encap mapping goes through make_encap into the encap
object, and each nexthop mapping - its encap normalized, the MPLS
family forced on MPLS tables - is added through add_nh. -/
def buildAddRoute (isMpls : Bool) (spec : RDct) (mp : List RDct) :
    Except PyErr RDct := do
  let r0 := spec.fields.foldl (fun acc kv => acc.setF kv.1 kv.2) freshRoute
  let r1 := r0.setF ("ipdb_scope") (some (PVal.s ("create")))
  let r2 ← (match spec.encap with
    | some e => do
        let e2 ← makeEncap e
        pure (r1.setEncap (some e2))
    | none => pure r1)
  let mp2 ← mp.foldlM (fun acc nh => do
      let nh2 ← (match nh.encap with
        | some e => do
            let e2 ← makeEncap e
            pure (nh.setEncap (some e2))
        | none => pure nh)
      let nh3 := if isMpls then nh2.setF ("family") (some (PVal.i afMpls)) else nh2
      nhsAdd acc (.dct nh3)) r2.multipath
  pure (r2.setMP mp2)

/-- RoutingTableSet.add (route.py 783-817).  The spec mapping is
dict(spec or kwarg); its multipath value - a list of plain nexthop
mappings, popped before anything else - is the mp parameter.  The dst
guard comes first; then the table id is resolved (mpls for the MPLS
family, else the table value or 254) and a missing table is created;
the route is assembled and stored into the table under the key derived
from the route itself. -/
def rtsAdd (ts : RTSet) (spec : RDct) (mp : List RDct) :
    Except PyErr (RTSet × RDct) := do
  if (spec.fields.lookup ("dst")).isNone then .error .valueErr
  else do
    let isMpls := spec.gf ("family") = some (PVal.i afMpls)
    let tid : TblId := if isMpls then some (PVal.s ("mpls"))
      else match spec.fields.lookup ("table") with
        | some v => v
        | none => some (PVal.i 254)
    let newTbl : Tbl := if isMpls then Tbl.mpls [] else Tbl.ord []
    let ts1 : RTSet := if (ts.tables.lookup tid).isSome then ts
      else { ts with tables := setKV ts.tables tid newTbl }
    let route ← buildAddRoute isMpls spec mp
    match ts1.tables.lookup tid with
    | some (Tbl.ord idx) => do
        let k ← routeMakeKeyD route
        let record ← (match tupDescribe idx (rkToList k) with
          | .ok rec => .ok rec
          | .error .keyErr => .ok { route := route, rkey := none }
          | .error e => .error e)
        let tbls := setKV ts1.tables tid (Tbl.ord (ordStore idx record.rkey k route))
        .ok ({ ts1 with tables := tbls }, route)
    | some (Tbl.mpls idx) => do
        let kv ← mplsMakeKeyD route
        let k ← nhValToMK kv
        let record ← (match mplsKeyDescribe idx k with
          | .ok rec => .ok rec
          | .error .keyErr => .ok { route := route, rkey := none }
          | .error e => .error e)
        let tbls := setKV ts1.tables tid (Tbl.mpls (mplsStore idx record.rkey k route))
        .ok ({ ts1 with tables := tbls }, route)
    | none => .error .keyErr

/-- C8: an RTM_DELROUTE notification is handled inside a bare
try/except that logs and absorbs every exception: whenever a decoded
message reaches the deletion branch (its table id resolves and is not
ignored), load_netlink returns normally, and whenever the deletion
handling itself fails - the entity cannot be located in the table, or
any other error occurs - the table set comes back unchanged. -/
theorem claim_C8 (ts : RTSet) (m : Msg) (tid : TblId)
    (htid : tidOf m = .ok tid) (hig : tid ∉ ts.ignore)
    (hev : m.mget ("event") = some (PVal.s ("RTM_DELROUTE"))) :
    rtsLoadNetlink ts true m = .ok (delBranch ts tid m, none) ∧
    (∀ e, delAct ts tid m = .error e →
       rtsLoadNetlink ts true m = .ok (ts, none)) := by
  have h1 : rtsLoadNetlink ts true m = .ok (delBranch ts tid m, none) := by
    unfold rtsLoadNetlink
    rw [htid]
    simp [hig, hev]
  refine ⟨h1, fun e he => ?_⟩
  rw [h1]
  unfold delBranch
  rw [he]

def c8m : Msg :=
  .mk [("family", PVal.i 2), ("table", PVal.i 254), ("dst_len", PVal.i 24),
       ("event", PVal.s ("RTM_DELROUTE"))]
      [("RTA_DST", .v (PVal.s ("10.1.0.0")))]

def c8ts : RTSet := { tables := [(some (PVal.i 254), Tbl.ord [])], ignore := [] }

theorem claim_C8_witness :
    rtsLoadNetlink c8ts true c8m = .ok (c8ts, none) ∧
    delAct c8ts (some (PVal.i 254)) c8m = .error .keyErr :=
  ⟨(claim_C8 c8ts c8m (some (PVal.i 254)) rfl (by simp [c8ts]) rfl).2 .keyErr rfl,
   rfl⟩

/-- C9: RoutingTableSet.add checks the spec mapping for a dst key
first: a mapping without one - whether it came in as a dict or as
keyword arguments, both merged by dict(spec or kwarg) - raises
ValueError before any route entity is built or any table is created or
written, for every table set state, so the set is left unchanged. -/
theorem claim_C9 (ts : RTSet) (spec : RDct) (mp : List RDct)
    (h : spec.fields.lookup ("dst") = none) :
    rtsAdd ts spec mp = .error .valueErr := by
  unfold rtsAdd
  rw [h]
  rfl

theorem claim_C9_witness :
    rtsAdd c8ts (RDct.mk [("gateway", some (PVal.s ("10.0.0.1")))]
      none none none []) [] = .error .valueErr :=
  claim_C9 c8ts (RDct.mk [("gateway", some (PVal.s ("10.0.0.1")))]
    none none none []) [] rfl

/- ### BaseRoute.commit (route.py 260-366), modelled for the ordinary
Route class.  The family branch of the code only selects which table
index object the commit works on (route.py 298-304, 337-343); the model
carries that index directly as part of the commit state. -/

/-- One kernel request issued by commit: the main add/set request built
from the transaction, or the delete request built from the snapshot. -/
inductive CReq where
  | main (devop : String)
  | delRoute
deriving DecidableEq, Repr

/-- The outcome of the external collaborators during one commit
attempt: the main request, the wait for all changed attributes, the
delete request, and the deletion watchdog (spec-modelled authority
transport and wait mechanism: each either completes or raises). -/
structure NlO where
  reqOk : Bool
  waitOk : Bool
  delOk : Bool
  wdOk : Bool
deriving DecidableEq, Repr

/-- The error commit reports: the underlying exception, the cause
carried by the RuntimeError of the failed-rollback path, and whether
the transaction was attached before raising (error.transaction = ...,
route.py 362-364; an exception escaping the except handler itself is
raised un-annotated). -/
structure CErr where
  err : PyErr
  cause : Option PyErr
  txAttached : Bool
deriving DecidableEq, Repr

/-- The state commit reads and mutates: the route entity's current
values, the table index selected by the family branch, the log of the
kernel requests issued so far, and whether self.nl was dropped by the
terminal add-failure handler. -/
structure CSt where
  self : RDct
  idx : List (RouteKey × TRec)
  reqs : List CReq
  nlDead : Bool

/-- The result of a commit call: the final state and the raised error,
if any (a Python exception leaves the mutations behind, so the state is
returned in both cases). -/
structure CRes where
  st : CSt
  err : Option CErr

/-- Modelled from the spec: the structural diff of the transactional
substrate (transaction - snapshot) - the transaction fields whose value
differs from the snapshot's. -/
def rdiff (tx snap : RDct) : List (String × Option PVal) :=
  tx.fields.filter (fun kv => snap.fields.lookup kv.1 != some kv.2)

/-- any(mapping.values()) over the metrics object of a snapshot (an
absent object reads as an empty mapping through the entity's
materializing item read). -/
def metricsValsTruthy (d : RDct) : Bool :=
  (d.metrics.getD []).any (fun kv => kv.2.truthy)

/-- any(values) of the encap object's (type, labels) pair. -/
def encValsTruthy (e : Option (Option PVal × Option PVal)) : Bool :=
  match e with
  | some p => truthyO p.1 || truthyO p.2
  | none => false

/-- Modelled from the spec: truthiness of the values of the nested
metrics part of the diff (diff.get('metrics', \x7b\x7d).values()). -/
def diffMetricsTruthy (tx snap : RDct) : Bool :=
  ((tx.metrics.getD []).filter
     (fun kv => (snap.metrics.getD []).lookup kv.1 != some kv.2)).any
    (fun kv => kv.2.truthy)

/-- Modelled from the spec: truthiness of the values of the nested
encap part of the diff. -/
def diffEncapTruthy (tx snap : RDct) : Bool :=
  match tx.encap with
  | some p =>
      ((snap.encap.map Prod.fst != some p.1) && truthyO p.1) ||
      ((snap.encap.map Prod.snd != some p.2) && truthyO p.2)
  | none => false

/-- The guard of the main request block (route.py 287-292): a truthy
changed field in the scope-stripped diff, a metrics or encap cleanup
flag (non-MPLS families only; clearing nested state needs an explicit
write), or an add. -/
def mainCondOf (devop : String) (snap tx : RDct) : Bool :=
  let diff := delAssoc (rdiff tx snap) ("ipdb_scope")
  let isM := snap.gf ("family") = some (PVal.i afMpls)
  let cl1 := (¬ isM) && metricsValsTruthy snap && ! diffMetricsTruthy tx snap
  let cl2 := (¬ isM) && encValsTruthy snap.encap && ! diffEncapTruthy tx snap
  diff.any (fun kv => truthyO kv.2) || cl1 || cl2 || devop == "add"

/-- The main request block of commit (route.py 292-314): with the guard
up, build the old key from the route and the new key from the
transaction; a key move first reserves the new key in the index
(raising CommitException when it is occupied), then issues the request,
then frees the old key (a dict del, KeyError when absent) - an
unchanged key issues the request directly; then the wait for all
changed attributes.  An error returns the state as mutated so far. -/
def mainStep (devop : String) (st : CSt) (tx : RDct) (o : NlO)
    (mainCond : Bool) : Except (PyErr × CSt) CSt :=
  if mainCond then
    match routeMakeKeyD st.self with
    | .error e => .error (e, st)
    | .ok old_key =>
      match routeMakeKeyD tx with
      | .error e => .error (e, st)
      | .ok new_key =>
        if old_key ≠ new_key then
          if (st.idx.lookup new_key).isNone then
            let st1 := { st with
              idx := setKV st.idx new_key { route := st.self, rkey := some new_key },
              reqs := st.reqs ++ [CReq.main devop] }
            if o.reqOk then
              (if (st1.idx.lookup old_key).isSome then
                let st2 := { st1 with idx := delKV st1.idx old_key }
                (if o.waitOk then .ok st2 else .error (.waitFail, st2))
              else .error (.keyErr, st1))
            else .error (.reqFail, st1)
          else .error (.commitExc, st)
        else
          let st1 := { st with reqs := st.reqs ++ [CReq.main devop] }
          if o.reqOk then
            (if o.waitOk then .ok st1 else .error (.waitFail, st1))
          else .error (.reqFail, st1)
  else .ok st

/-- The removal block of commit (route.py 315-329): when the
transaction's scope is shadow or remove - or create during a rollback -
bracket the step with the shadow-to-locked scope flips, create the
deletion watchdog, issue the delete request against the snapshot and
wait for the deletion notification.  The per-response detach of the
snapshot from the owning table set is the spec-modelled table-set side
and outside this state. -/
def removalGo (tx : RDct) (o : NlO) (st : CSt) : Except (PyErr × CSt) CSt :=
  let stA := if tx.gf ("ipdb_scope") = some (PVal.s ("shadow")) then
      { st with self := st.self.setF ("ipdb_scope") (some (PVal.s ("locked"))) }
    else st
  let stB := { stA with reqs := stA.reqs ++ [CReq.delRoute] }
  if o.delOk then
    (if o.wdOk then
      .ok (if tx.gf ("ipdb_scope") = some (PVal.s ("shadow")) then
          { stB with self := stB.self.setF ("ipdb_scope") (some (PVal.s ("shadow"))) }
        else stB)
    else .error (.wdFail, stB))
  else .error (.delFail, stB)

def removalStep (rb : Bool) (tx : RDct) (o : NlO) (st : CSt) :
    Except (PyErr × CSt) CSt :=
  if tx.gf ("ipdb_scope") = some (PVal.s ("shadow")) ∨
     tx.gf ("ipdb_scope") = some (PVal.s ("remove")) ∨
     (tx.gf ("ipdb_scope") = some (PVal.s ("create")) ∧ rb) then
    removalGo tx o st
  else .ok st

/-- The try block of commit (route.py 285-329). -/
def tryBody (rb : Bool) (devop : String) (st : CSt) (tx : RDct) (o : NlO) :
    Except (PyErr × CSt) CSt :=
  (mainStep devop st tx o (mainCondOf devop st.self tx)) >>= removalStep rb tx o

/-- The terminal add-failure handler (route.py 332-345): drop self.nl,
force the scope to invalid, and delete the index entry under the key
rebuilt from the route's current values; the error is then re-raised
with the transaction attached (route.py 362-364).  A failure of the
key rebuild or of the dict del inside the handler propagates raw,
without the transaction annotation. -/
def addFail (st : CSt) (e : PyErr) : CRes :=
  match routeMakeKeyD (st.self.setF ("ipdb_scope") (some (PVal.s ("invalid")))) with
  | .error e2 =>
      { st := { st with
          nlDead := true
          self := st.self.setF ("ipdb_scope") (some (PVal.s ("invalid"))) },
        err := some { err := e2, cause := none, txAttached := false } }
  | .ok rk =>
      if (st.idx.lookup rk).isSome then
        { st := { st with
            nlDead := true
            self := st.self.setF ("ipdb_scope") (some (PVal.s ("invalid")))
            idx := delKV st.idx rk },
          err := some { err := e, cause := none, txAttached := true } }
      else
        { st := { st with
            nlDead := true
            self := st.self.setF ("ipdb_scope") (some (PVal.s ("invalid"))) },
          err := some { err := PyErr.keyErr, cause := none, txAttached := false } }

/-- The devop computation of commit (route.py 275-276). -/
def devopOf (st : CSt) : String :=
  if st.self.gf ("ipdb_scope") ≠ some (PVal.s ("system")) then "add" else "set"

/-- commit called with the rollback flag (route.py 346-357, the inner
recursive call): a set failure with rollback already up discards the
transaction and raises a RuntimeError wrapping the cause - the
unrecoverable path; an add failure is terminal as always. -/
def commitRB (st : CSt) (tx : RDct) (o : NlO) : CRes :=
  match tryBody true (devopOf st) st tx o with
  | .ok st2 => { st := st2, err := none }
  | .error (e, st2) =>
      if devopOf st = "add" then addFail st2 e
      else { st := st2,
             err := some { err := PyErr.runtime, cause := some e, txAttached := false } }

/-- The error reporting of the set-failure rollback path: a rollback
raise propagates as-is; a completed rollback reports the original
error with the transaction attached. -/
def setFailWrap (r2 : CRes) (e : PyErr) : CRes :=
  match r2.err with
  | some e2 => { st := r2.st, err := some e2 }
  | none => { st := r2.st, err := some { err := e, cause := none, txAttached := true } }

/-- A top-level commit (rollback flag down).  On a set failure the
rollback commit re-runs with the snapshot as the transaction (route.py
346-351); commit never returns an exception value, so the original
error is reported (transaction attached) when the rollback completes,
and a rollback raise propagates as-is through the handler. -/
def commitTop (st : CSt) (tx : RDct) (o o2 : NlO) : CRes :=
  match tryBody false (devopOf st) st tx o with
  | .ok st2 => { st := st2, err := none }
  | .error (e, st2) =>
      if devopOf st = "add" then addFail st2 e
      else setFailWrap (commitRB st2 st.self o2) e

theorem lookup_setKV_self {κ ρ : Type} [DecidableEq κ] (idx : List (κ × ρ))
    (k : κ) (v : ρ) : (setKV idx k v).lookup k = some v := by
  induction idx with
  | nil => simp [setKV, List.lookup]
  | cons e t ih =>
      by_cases h : e.1 = k
      · simp [setKV, h, List.lookup]
      · simp only [setKV]
        rw [if_neg (by simpa using h)]
        simpa [List.lookup, beq_false_of_ne (Ne.symm h)] using ih

theorem lookup_setKV_ne {κ ρ : Type} [DecidableEq κ] (idx : List (κ × ρ))
    (k k2 : κ) (v : ρ) (h : k2 ≠ k) :
    (setKV idx k v).lookup k2 = idx.lookup k2 := by
  induction idx with
  | nil => simp [setKV, List.lookup, beq_false_of_ne h]
  | cons e t ih =>
      by_cases he : e.1 = k
      · simp only [setKV]
        rw [if_pos (by simpa using he)]
        have h2 : k2 ≠ e.1 := by rw [he]; exact h
        simp [List.lookup, beq_false_of_ne h, beq_false_of_ne h2]
      · simp only [setKV]
        rw [if_neg (by simpa using he)]
        by_cases h2 : k2 = e.1
        · simp [List.lookup, h2]
        · simp [List.lookup, beq_false_of_ne h2, ih]

theorem lookup_delKV_ne {κ ρ : Type} [DecidableEq κ] (idx : List (κ × ρ))
    (k k2 : κ) (h : k2 ≠ k) :
    (delKV idx k).lookup k2 = idx.lookup k2 := by
  induction idx with
  | nil => simp [delKV]
  | cons e t ih =>
      by_cases he : e.1 = k
      · simp only [delKV]
        rw [if_pos (by simpa using he)]
        have h2 : k2 ≠ e.1 := fun hx => h (hx ▸ he)
        simp [List.lookup, beq_false_of_ne h2]
      · simp only [delKV]
        rw [if_neg (by simpa using he)]
        by_cases h2 : k2 = e.1
        · simp [List.lookup, h2]
        · simp [List.lookup, beq_false_of_ne h2, ih]

theorem lookup_eq_none_of_not_mem_keys {κ ρ : Type} [DecidableEq κ]
    {idx : List (κ × ρ)} {k : κ} (h : k ∉ idx.map Prod.fst) :
    idx.lookup k = none := by
  induction idx with
  | nil => simp [List.lookup]
  | cons e t ih =>
      simp only [List.map_cons, List.mem_cons, not_or] at h
      simp [List.lookup, beq_false_of_ne h.1, ih h.2]

theorem lookup_delKV_self {κ ρ : Type} [DecidableEq κ] {idx : List (κ × ρ)}
    {k : κ} (hnd : (idx.map Prod.fst).Nodup) :
    (delKV idx k).lookup k = none := by
  induction idx with
  | nil => simp [delKV, List.lookup]
  | cons e t ih =>
      simp only [List.map_cons, List.nodup_cons] at hnd
      by_cases he : e.1 = k
      · simp only [delKV]
        rw [if_pos (by simpa using he)]
        exact lookup_eq_none_of_not_mem_keys (he ▸ hnd.1)
      · simp only [delKV]
        rw [if_neg (by simpa using he)]
        simp [List.lookup, beq_false_of_ne (Ne.symm he), ih hnd.2]

theorem setKV_of_lookup_none {κ ρ : Type} [DecidableEq κ] {idx : List (κ × ρ)}
    {k : κ} (v : ρ) (h : idx.lookup k = none) :
    setKV idx k v = idx ++ [(k, v)] := by
  induction idx with
  | nil => simp [setKV]
  | cons e t ih =>
      simp only [List.lookup] at h
      by_cases he : k = e.1
      · rw [beq_iff_eq.2 he] at h; simp at h
      · rw [beq_false_of_ne he] at h
        simp only [setKV]
        rw [if_neg (by simpa using Ne.symm he)]
        simp [ih h]

theorem lookup_append_of_none {κ ρ : Type} [DecidableEq κ]
    {idx : List (κ × ρ)} {k : κ} (l2 : List (κ × ρ))
    (h : idx.lookup k = none) : (idx ++ l2).lookup k = l2.lookup k := by
  induction idx with
  | nil => simp
  | cons e t ih =>
      simp only [List.lookup] at h ⊢
      cases hb : k == e.1 with
      | true => rw [hb] at h; simp at h
      | false => rw [hb] at h; simpa using ih h

theorem delKV_append_left {κ ρ : Type} [DecidableEq κ]
    {idx : List (κ × ρ)} {k : κ} (l2 : List (κ × ρ))
    (h : (idx.lookup k).isSome = true) :
    delKV (idx ++ l2) k = delKV idx k ++ l2 := by
  induction idx with
  | nil => simp [List.lookup] at h
  | cons e t ih =>
      simp only [List.lookup] at h
      by_cases he : e.1 = k
      · simp only [List.cons_append, delKV]
        rw [if_pos (by simpa using he), if_pos (by simpa using he)]
        rfl
      · rw [beq_false_of_ne (fun hx => he (hx.symm))] at h
        simp only [List.cons_append, delKV]
        rw [if_neg (by simpa using he), if_neg (by simpa using he)]
        simp [ih h]

theorem mem_delKV_of_ne {κ ρ : Type} [DecidableEq κ]
    {idx : List (κ × ρ)} {k : κ} {p : κ × ρ}
    (hp : p ∈ idx) (h : p.1 ≠ k) : p ∈ delKV idx k := by
  induction idx with
  | nil => simp at hp
  | cons e t ih =>
      rcases List.mem_cons.1 hp with hp | hp
      · subst hp
        simp only [delKV]
        rw [if_neg (by simpa using h)]
        exact List.mem_cons_self _ _
      · by_cases he : e.1 = k
        · simp only [delKV]
          rw [if_pos (by simpa using he)]
          exact hp
        · simp only [delKV]
          rw [if_neg (by simpa using he)]
          exact List.mem_cons_of_mem _ (ih hp)

theorem delKV_of_lookup_none {κ ρ : Type} [DecidableEq κ]
    {idx : List (κ × ρ)} {k : κ} (h : idx.lookup k = none) :
    delKV idx k = idx := by
  induction idx with
  | nil => simp [delKV]
  | cons e t ih =>
      simp only [List.lookup] at h
      by_cases he : k = e.1
      · rw [beq_iff_eq.2 he] at h; simp at h
      · rw [beq_false_of_ne he] at h
        simp only [delKV]
        rw [if_neg (by simpa using Ne.symm he)]
        simp [ih h]

theorem move_lookup {idx : List (RouteKey × TRec)} {okk nkk : RouteKey}
    (v : TRec) (hnd : (idx.map Prod.fst).Nodup)
    (hnone : idx.lookup nkk = none) (hne : okk ≠ nkk) :
    (delKV (setKV idx nkk v) okk).lookup nkk = some v ∧
    (delKV (setKV idx nkk v) okk).lookup okk = none := by
  rw [setKV_of_lookup_none v hnone]
  have hmem : (idx.lookup okk).isSome = true ∨ idx.lookup okk = none := by
    cases idx.lookup okk <;> simp
  rcases hmem with hs | hn
  · rw [delKV_append_left _ hs]
    constructor
    · rw [lookup_append_of_none _ (by rw [lookup_delKV_ne _ _ _ (Ne.symm hne)]; exact hnone)]
      simp [List.lookup]
    · rw [lookup_append_of_none _ (lookup_delKV_self hnd)]
      simp [List.lookup, beq_false_of_ne hne]
  · have happ : (idx ++ [(nkk, v)]).lookup okk = none := by
      rw [lookup_append_of_none _ hn]
      simp [List.lookup, beq_false_of_ne hne]
    rw [delKV_of_lookup_none happ]
    constructor
    · rw [lookup_append_of_none _ hnone]
      simp [List.lookup]
    · exact happ

/-- C2 (amended): when the new structural key differs from the old one,
commit's main block reserves the new key in the index before the kernel
request is issued and raises CommitException (with no request and no
state change) when the new key is occupied; on success exactly one
index entry sits under the new key and the old key is gone; but on a
request failure the reservation has already happened and stays in the
failed state - it is not undone by the set-failure rollback, so a new
entry can leak and the route is indexed under two keys at once. -/
theorem claim_C2 (st : CSt) (tx : RDct) (devop : String) (o : NlO)
    (okk nkk : RouteKey)
    (hok : routeMakeKeyD st.self = .ok okk)
    (hnk : routeMakeKeyD tx = .ok nkk)
    (hne : okk ≠ nkk) :
    ((st.idx.lookup nkk).isSome = true →
       mainStep devop st tx o true = .error (.commitExc, st)) ∧
    (st.idx.lookup nkk = none → (st.idx.lookup okk).isSome = true →
     o.reqOk = true → o.waitOk = true →
       (mainStep devop st tx o true =
         .ok { st with
               idx := delKV (setKV st.idx nkk { route := st.self, rkey := some nkk }) okk,
               reqs := st.reqs ++ [CReq.main devop] } ∧
        ((st.idx.map Prod.fst).Nodup →
          ((delKV (setKV st.idx nkk { route := st.self, rkey := some nkk }) okk).lookup nkk =
             some { route := st.self, rkey := some nkk } ∧
           (delKV (setKV st.idx nkk { route := st.self, rkey := some nkk }) okk).lookup okk =
             none)))) ∧
    (st.idx.lookup nkk = none → o.reqOk = false →
       (mainStep devop st tx o true =
         .error (.reqFail, { st with
               idx := setKV st.idx nkk { route := st.self, rkey := some nkk },
               reqs := st.reqs ++ [CReq.main devop] }) ∧
        (setKV st.idx nkk { route := st.self, rkey := some nkk }).lookup okk =
          st.idx.lookup okk ∧
        (setKV st.idx nkk { route := st.self, rkey := some nkk }).lookup nkk =
          some { route := st.self, rkey := some nkk })) := by
  refine ⟨?_, ?_, ?_⟩
  · intro ha
    unfold mainStep
    rw [hok, hnk]
    cases hl : st.idx.lookup nkk with
    | none => rw [hl] at ha; simp at ha
    | some rec => simp [hne, hl]
  · intro h1 h2 h3 h4
    constructor
    · unfold mainStep
      rw [hok, hnk]
      simp only [h1, h3, h4]
      rw [lookup_setKV_ne st.idx nkk okk _ hne]
      simp [hne, h2, h1, h3, h4]
    · intro hnd
      exact move_lookup _ hnd h1 hne
  · intro h1 h2
    refine ⟨?_, lookup_setKV_ne st.idx nkk okk _ hne, lookup_setKV_self st.idx nkk _⟩
    unfold mainStep
    rw [hok, hnk]
    simp [hne, h1, h2]

def c2self : RDct :=
  .mk [("ipdb_scope", some (PVal.s ("system"))), ("family", some (PVal.i 2)),
       ("dst", some (PVal.s ("10.2.0.0/24")))] none none none []

def c2tx : RDct :=
  .mk [("ipdb_scope", some (PVal.s ("system"))), ("family", some (PVal.i 2)),
       ("dst", some (PVal.s ("10.2.0.0/24"))),
       ("gateway", some (PVal.s ("10.0.0.9")))] none none none []

def c2old : RouteKey :=
  { src := none, dst := some (PVal.s ("10.2.0.0/24")), gateway := none,
    encap := none, iif := none, oif := none }

def c2new : RouteKey :=
  { c2old with gateway := some (PVal.s ("10.0.0.9")) }

def c2st : CSt :=
  { self := c2self, idx := [(c2old, { route := c2self, rkey := some c2old })],
    reqs := [], nlDead := false }

def c2oFail : NlO := { reqOk := false, waitOk := true, delOk := true, wdOk := true }

def c2oOk : NlO := { reqOk := true, waitOk := true, delOk := true, wdOk := true }

/-- C2 (counterexample): a set commit that moves the key, whose kernel
request fails after the new key was reserved: the set-failure rollback
does not undo the reservation, so the final state - with the original
error reported, transaction attached - still indexes the route under
BOTH the old and the new key: a new entry leaked, refuting the claimed
no-leak failure mode. -/
theorem claim_C2_counterexample :
    routeMakeKeyD c2self = .ok c2old ∧ routeMakeKeyD c2tx = .ok c2new ∧
    c2old ≠ c2new ∧
    (commitTop c2st c2tx c2oFail c2oOk).err =
      some { err := PyErr.reqFail, cause := none, txAttached := true } ∧
    ((commitTop c2st c2tx c2oFail c2oOk).st.idx.lookup c2old).isSome = true ∧
    ((commitTop c2st c2tx c2oFail c2oOk).st.idx.lookup c2new).isSome = true :=
  ⟨rfl, rfl, by decide, rfl, rfl, rfl⟩

theorem claim_C2_witness :
    mainStep ("set") c2st c2tx c2oOk true =
      .ok { c2st with
            idx := delKV (setKV c2st.idx c2new { route := c2self, rkey := some c2new }) c2old,
            reqs := [CReq.main ("set")] } ∧
    (delKV (setKV c2st.idx c2new { route := c2self, rkey := some c2new }) c2old).lookup c2new =
      some { route := c2self, rkey := some c2new } ∧
    (delKV (setKV c2st.idx c2new { route := c2self, rkey := some c2new }) c2old).lookup c2old =
      none := by
  have h := claim_C2 c2st c2tx ("set") c2oOk c2old c2new rfl rfl (by decide)
  have h2 := h.2.1 rfl rfl rfl rfl
  exact ⟨h2.1, (h2.2 (by decide)).1, (h2.2 (by decide)).2⟩

/-- C3 (amended): a commit whose scope-stripped diff has no truthy
value, with no cleanup flag and not an add, issues no kernel request
and succeeds with the state untouched PROVIDED the transaction's scope
is not shadow or remove: the removal block keys on the transaction
scope alone, so a scope-only change to shadow or remove still issues a
kernel delete request even with an empty diff; a pure scope change to
any other value never triggers a kernel write. -/
theorem claim_C3 (st : CSt) (tx : RDct) (o o2 : NlO)
    (hscope : st.self.gf ("ipdb_scope") = some (PVal.s ("system")))
    (hmc : mainCondOf ("set") st.self tx = false)
    (hsh : ¬ tx.gf ("ipdb_scope") = some (PVal.s ("shadow")))
    (hrm : ¬ tx.gf ("ipdb_scope") = some (PVal.s ("remove"))) :
    commitTop st tx o o2 = { st := st, err := none } ∧
    (commitTop st tx o o2).st.reqs = st.reqs := by
  have hdev : devopOf st = "set" := by
    unfold devopOf
    rw [if_neg (by simp [hscope])]
  have hmain : commitTop st tx o o2 = { st := st, err := none } := by
    unfold commitTop tryBody
    rw [hdev, hmc]
    have hms : mainStep ("set") st tx o false = .ok st := rfl
    rw [hms]
    simp only [except_bind_ok2]
    unfold removalStep
    rw [if_neg (by simp [hsh, hrm])]
  exact ⟨hmain, by rw [hmain]⟩

def c3self : RDct :=
  .mk [("ipdb_scope", some (PVal.s ("system"))), ("family", some (PVal.i 2)),
       ("dst", some (PVal.s ("10.3.0.0/24")))] none none none []

def c3tx : RDct :=
  .mk [("ipdb_scope", some (PVal.s ("remove"))), ("family", some (PVal.i 2)),
       ("dst", some (PVal.s ("10.3.0.0/24")))] none none none []

def c3tx2 : RDct :=
  .mk [("ipdb_scope", some (PVal.s ("locked"))), ("family", some (PVal.i 2)),
       ("dst", some (PVal.s ("10.3.0.0/24")))] none none none []

def c3key : RouteKey :=
  { src := none, dst := some (PVal.s ("10.3.0.0/24")), gateway := none,
    encap := none, iif := none, oif := none }

def c3st : CSt :=
  { self := c3self, idx := [(c3key, { route := c3self, rkey := some c3key })],
    reqs := [], nlDead := false }

def c3o : NlO := { reqOk := true, waitOk := true, delOk := true, wdOk := true }

/-- C3 (counterexample): a transaction that changes ONLY ipdb_scope -
to remove - has an empty scope-stripped diff and no cleanup flag, and
the commit is not an add; yet commit issues a kernel delete request
(the removal block fires on the transaction scope), refuting the
unconditional no-request reading. -/
theorem claim_C3_counterexample :
    (delAssoc (rdiff c3tx c3self) ("ipdb_scope")).any (fun kv => truthyO kv.2) = false ∧
    mainCondOf ("set") c3self c3tx = false ∧
    (commitTop c3st c3tx c3o c3o).st.reqs = [CReq.delRoute] ∧
    (commitTop c3st c3tx c3o c3o).err = none :=
  ⟨by decide, by decide, rfl, rfl⟩

theorem claim_C3_witness :
    commitTop c3st c3tx2 c3o c3o = { st := c3st, err := none } ∧
    (commitTop c3st c3tx2 c3o c3o).st.reqs = c3st.reqs :=
  claim_C3 c3st c3tx2 c3o c3o rfl (by decide) (by decide) (by decide)

/-- C4 (amended): any exception during an add commit is terminal - no
rollback commit is attempted, self.nl is dropped, the scope is forced
to invalid, and the error is re-raised with the transaction attached -
but the index entry deleted is the one under the key rebuilt from the
route's CURRENT values (the old key), not the key freshly reserved for
a key-moving add: entries under any other key, the leaked reservation
included, survive the purge. -/
theorem claim_C4 (st : CSt) (tx : RDct) (o o2 : NlO) (e : PyErr) (st2 : CSt)
    (rk : RouteKey)
    (hscope : ¬ st.self.gf ("ipdb_scope") = some (PVal.s ("system")))
    (hfail : tryBody false ("add") st tx o = .error (e, st2))
    (hrk : routeMakeKeyD (st2.self.setF ("ipdb_scope") (some (PVal.s ("invalid")))) = .ok rk)
    (hin : (st2.idx.lookup rk).isSome = true) :
    commitTop st tx o o2 = addFail st2 e ∧
    addFail st2 e =
      { st := { self := st2.self.setF ("ipdb_scope") (some (PVal.s ("invalid"))),
                idx := delKV st2.idx rk, reqs := st2.reqs, nlDead := true },
        err := some { err := e, cause := none, txAttached := true } } ∧
    (∀ p ∈ st2.idx, p.1 ≠ rk → p ∈ (addFail st2 e).st.idx) := by
  have hdev : devopOf st = "add" := by
    unfold devopOf
    rw [if_pos hscope]
  have h2 : addFail st2 e =
      { st := { self := st2.self.setF ("ipdb_scope") (some (PVal.s ("invalid"))),
                idx := delKV st2.idx rk, reqs := st2.reqs, nlDead := true },
        err := some { err := e, cause := none, txAttached := true } } := by
    unfold addFail
    rw [hrk]
    simp only [hin, if_true]
  refine ⟨?_, h2, ?_⟩
  · unfold commitTop
    rw [hdev, hfail]
    simp
  · intro p hp hne2
    rw [h2]
    exact mem_delKV_of_ne hp hne2

def c4self : RDct :=
  .mk [("ipdb_scope", some (PVal.s ("create"))), ("family", some (PVal.i 2)),
       ("dst", some (PVal.s ("10.4.0.0/24")))] none none none []

def c4tx : RDct :=
  .mk [("ipdb_scope", some (PVal.s ("create"))), ("family", some (PVal.i 2)),
       ("dst", some (PVal.s ("10.4.0.0/24"))),
       ("gateway", some (PVal.s ("10.0.0.5")))] none none none []

def c4old : RouteKey :=
  { src := none, dst := some (PVal.s ("10.4.0.0/24")), gateway := none,
    encap := none, iif := none, oif := none }

def c4new : RouteKey :=
  { c4old with gateway := some (PVal.s ("10.0.0.5")) }

def c4st : CSt :=
  { self := c4self, idx := [(c4old, { route := c4self, rkey := some c4old })],
    reqs := [], nlDead := false }

def c4st2 : CSt :=
  { self := c4self,
    idx := [(c4old, { route := c4self, rkey := some c4old }),
            (c4new, { route := c4self, rkey := some c4new })],
    reqs := [CReq.main ("add")], nlDead := false }

def c4o : NlO := { reqOk := false, waitOk := true, delOk := true, wdOk := true }

/-- C4 (counterexample): a failing key-moving add.  The handler deletes
the entry under make_key(self) - the old key - while the entry reserved
under the new key stays in the index after commit reports the error:
the reserved index key is NOT the one removed. -/
theorem claim_C4_counterexample :
    tryBody false ("add") c4st c4tx c4o = .error (.reqFail, c4st2) ∧
    (c4st2.idx.lookup c4new).isSome = true ∧
    (commitTop c4st c4tx c4o c4o).st.idx.lookup c4old = none ∧
    ((commitTop c4st c4tx c4o c4o).st.idx.lookup c4new).isSome = true ∧
    (commitTop c4st c4tx c4o c4o).err =
      some { err := PyErr.reqFail, cause := none, txAttached := true } ∧
    (commitTop c4st c4tx c4o c4o).st.reqs = [CReq.main ("add")] :=
  ⟨rfl, rfl, rfl, rfl, rfl, rfl⟩

theorem claim_C4_witness :
    commitTop c4st c4tx c4o c4o = addFail c4st2 PyErr.reqFail ∧
    addFail c4st2 PyErr.reqFail =
      { st := { self := c4st2.self.setF ("ipdb_scope") (some (PVal.s ("invalid"))),
                idx := delKV c4st2.idx c4old, reqs := c4st2.reqs, nlDead := true },
        err := some { err := PyErr.reqFail, cause := none, txAttached := true } } ∧
    (∀ p ∈ c4st2.idx, p.1 ≠ c4old → p ∈ (addFail c4st2 PyErr.reqFail).st.idx) :=
  claim_C4 c4st c4tx c4o c4o PyErr.reqFail c4st2 c4old (by decide) rfl rfl rfl
